import Mathlib

/-!
# joltik: the product pipeline of `cmd/sample.go` and the crawler of `pkg/crawler`

A shallow embedding of `cmd/sample.go`: the three text extractors
(`extractPrice`, `extractCategory`, `extractModelNumber`), the row serialiser
`Product.ToCSVRow`, the two stream stages of `main` (the filter predicate and
the raw-bag-to-`Product` map), and the goroutines of `main` that dispatch the
detail visits and close the channel; and of the two handlers that
`crawler.NewCrawler` registers on its collector.

Conventions of the embedding.

* A Go `string` is an immutable byte sequence, so it is a `List Nat` of byte
  values here (`GoString`).  Slicing `s[3:]`, `s[:3]` works on bytes, and the
  three regular expressions of the program only name ASCII characters, for
  which matching on bytes and matching on UTF-8 runes coincide.
* A run-time panic (slice bounds out of range) is `none` of an `Option`.
* Go's `int` is the 64-bit signed integer; it is an `Int` here and the places
  where its range matters (`strconv.Atoi`, the rank counter) reduce explicitly.
* A `float64` is an explicit IEEE-754 binary64 value (`Float64`), with the
  rounding of `strconv.ParseFloat` and of the `%.2f` verb computed exactly.
* The goroutines of `main` are a step relation over their atomic statements
  (`step`, `run`); a schedule is the list of the steps taken.
-/

set_option autoImplicit false
set_option exponentiation.threshold 4096
set_option maxRecDepth 65536

namespace Joltik

/-! ## Go strings -/

/-- A Go string: its bytes, in order. -/
abbrev GoString := List Nat

/-- UTF-8 encoding of one code point. -/
def utf8Encode (c : Nat) : List Nat :=
  if c < 0x80 then [c]
  else if c < 0x800 then [0xC0 + c / 64, 0x80 + c % 64]
  else if c < 0x10000 then [0xE0 + c / 4096, 0x80 + c / 64 % 64, 0x80 + c % 64]
  else [0xF0 + c / 262144, 0x80 + c / 4096 % 64, 0x80 + c / 64 % 64, 0x80 + c % 64]

/-- The Go string written as the source literal `s` (UTF-8 encoded). -/
def bytes (s : String) : GoString := s.toList.flatMap (fun c => utf8Encode c.toNat)

/-- Digits `0`..`9`: the class `\d` of Go's regexp and the digit test of strconv. -/
def isDigit (c : Nat) : Bool := decide (48 ≤ c) && decide (c ≤ 57)

/-- Lowercase ASCII letters: the class `[a-z]`. -/
def isLower (c : Nat) : Bool := decide (97 ≤ c) && decide (c ≤ 122)

/-- Uppercase ASCII letters: the class `[A-Z]`. -/
def isUpper (c : Nat) : Bool := decide (65 ≤ c) && decide (c ≤ 90)

/-- Word characters: the class `\w` of Go's regexp, `[0-9A-Za-z_]`. -/
def isWord (c : Nat) : Bool := isDigit c || isUpper c || isLower c || c == 95

/-- Whitespace: the class `\s` of Go's regexp, `[\t\n\f\r ]`. -/
def isSpace (c : Nat) : Bool := c == 9 || c == 10 || c == 12 || c == 13 || c == 32

/-- The class `[\d,]` of the price pattern. -/
def isDigitOrComma (c : Nat) : Bool := isDigit c || c == 44

/-- Specialisation `strings.ReplaceAll(text, "\u00A0", " ")`: every
non-overlapping occurrence of the two bytes `C2 A0` (the UTF-8 encoding of the
no-break space), scanning from the left, becomes one space. -/
def replaceNBSP : GoString → GoString
  | a :: b :: rest =>
      if a = 0xC2 ∧ b = 0xA0 then 32 :: replaceNBSP rest
      else a :: replaceNBSP (b :: rest)
  | l => l

/-- Specialisation `strings.ReplaceAll(text, ",", "")`: every comma byte is dropped. -/
def removeCommas (s : GoString) : GoString := s.filter (fun c => c != 44)

/-- Auxiliary scan of `strings.Split(s, ",")`: `cur` is the segment being read. -/
def splitCommaAux : GoString → GoString → List GoString
  | [], cur => [cur]
  | c :: rest, cur =>
      if c = 44 then cur :: splitCommaAux rest [] else splitCommaAux rest (cur ++ [c])

/-- Specialisation `strings.Split(s, ",")`: the segments between the commas of `s`
(always at least one segment). -/
def splitComma (s : GoString) : List GoString := splitCommaAux s []

/-! ## strconv: integers -/

/-- Value of a string of decimal digits, most significant first, continuing from `acc`. -/
def digitsValue : Nat → GoString → Nat
  | acc, [] => acc
  | acc, c :: rest => digitsValue (acc * 10 + (c - 48)) rest

/-- Unsigned part of `strconv.Atoi`: a non-empty string of digits gives its value. -/
def parseDigits (s : GoString) : Option Nat :=
  if s ≠ [] ∧ s.all isDigit then some (digitsValue 0 s) else none

/-- Function `strconv.Atoi` for the 64-bit `int`: an optional sign (`+` or `-`)
followed by one or more decimal digits whose value lies in
`[-2^63, 2^63 - 1]`; every other string is an error (`none`), a value out of
range included. -/
def Atoi (s : GoString) : Option Int :=
  match s with
  | [] => none
  | c :: rest =>
    if c = 45 then
      match parseDigits rest with
      | some n => if n ≤ 2 ^ 63 then some (-(n : Int)) else none
      | none => none
    else
      match parseDigits (if c = 43 then rest else c :: rest) with
      | some n => if n < 2 ^ 63 then some (n : Int) else none
      | none => none

/-- Decimal digits of a natural number, most significant first; `fuel` bounds the
number of digits. -/
def natDigitsAux : Nat → Nat → GoString → GoString
  | 0, _, acc => acc
  | fuel + 1, n, acc =>
      if n < 10 then (48 + n) :: acc else natDigitsAux fuel (n / 10) ((48 + n % 10) :: acc)

/-- Decimal rendering of a natural number. -/
def natDigits (n : Nat) : GoString := natDigitsAux (n + 1) n []

/-- Function `strconv.Itoa`, which is also the `%d` verb: decimal digits, with a
leading `-` for a negative number. -/
def Itoa (i : Int) : GoString :=
  if i < 0 then 45 :: natDigits i.natAbs else natDigits i.natAbs

/-- Reduction of an integer to the range of Go's 64-bit `int` (wrap-around on overflow). -/
def wrapInt64 (i : Int) : Int := (i + 2 ^ 63) % 2 ^ 64 - 2 ^ 63

/-! ## float64 and strconv.ParseFloat -/

/-- An IEEE-754 binary64 value.  The value of `finite neg m e` is
`(-1)^neg * m * 2^e`; the values produced by rounding are canonical:
`2^52 ≤ m < 2^53` with `-1074 ≤ e ≤ 971`, or `m < 2^52` with `e = -1074`. -/
inductive Float64 where
  | finite (neg : Bool) (mant : Nat) (exp : Int)
  | inf (neg : Bool)
  | nan
  deriving DecidableEq, Repr

/-- The zero value of a Go `float64` variable, `+0`. -/
def Float64.zero : Float64 := Float64.finite false 0 (-1074)

/-- Nearest integer to `num / den`, ties to the even integer. -/
def roundHalfEven (num den : Nat) : Nat :=
  let q := num / den
  let r := num % den
  if 2 * r < den then q
  else if den < 2 * r then q + 1
  else if q % 2 = 0 then q else q + 1

/-- Number of halvings that bring `n` below 2: the position of its leading bit. -/
def log2Floor : Nat → Nat → Nat
  | 0, _ => 0
  | fuel + 1, n => if n < 2 then 0 else log2Floor fuel (n / 2) + 1

/-- Correct rounding of the rational `num / den` (`den > 0`) with sign `neg` to
binary64, round-to-nearest-even.  The flag is `true` when the rounded magnitude
exceeds the largest finite value (the result is then an infinity). -/
def roundToFloat64 (neg : Bool) (num den : Nat) : Float64 × Bool :=
  if num = 0 then (Float64.finite neg 0 (-1074), false)
  else
    let e0 : Int := (log2Floor num num : Int) - (log2Floor den den : Int)
    let e : Int := if den * 2 ^ e0.toNat ≤ num * 2 ^ (-e0).toNat then e0 else e0 - 1
    let ex : Int := max (e - 52) (-1074)
    let m := roundHalfEven (num * 2 ^ (-ex).toNat) (den * 2 ^ ex.toNat)
    let m2 := if m = 2 ^ 53 then 2 ^ 52 else m
    let ex2 := if m = 2 ^ 53 then ex + 1 else ex
    if 971 < ex2 then (Float64.inf neg, true) else (Float64.finite neg m2 ex2, false)

/-- The two errors of package strconv. -/
inductive NumError where
  | malformed
  | outOfRange
  deriving DecidableEq, Repr

/-- ASCII lower-casing of a byte.  Every comparison of strconv's `lower(c)`
(which is `c | 0x20`) with a lowercase letter made below has the same outcome. -/
def lowerByte (c : Nat) : Nat := if 65 ≤ c ∧ c ≤ 90 then c + 32 else c

/-- Value of a hexadecimal letter digit `a`..`f` / `A`..`F`. -/
def hexLetter (c : Nat) : Option Nat :=
  if 97 ≤ c ∧ c ≤ 102 then some (c - 87)
  else if 65 ≤ c ∧ c ≤ 70 then some (c - 55)
  else none

/-- State of the mantissa scan of `readFloat`. -/
structure Mantissa where
  /-- All mantissa digits read so far, as one number in the base. -/
  value : Nat
  /-- How many of these digits came after the point. -/
  frac : Nat
  sawDot : Bool
  sawDigits : Bool
  underscores : Bool
  deriving DecidableEq, Repr

/-- The mantissa loop of `readFloat`: digits, underscores and at most one point;
returns the state and the unread rest. -/
def readMantissa (base : Nat) : GoString → Mantissa → Mantissa × GoString
  | [], st => (st, [])
  | c :: rest, st =>
      if c = 95 then readMantissa base rest ⟨st.value, st.frac, st.sawDot, st.sawDigits, true⟩
      else if c = 46 then
        if st.sawDot then (st, c :: rest)
        else readMantissa base rest ⟨st.value, st.frac, true, st.sawDigits, st.underscores⟩
      else if isDigit c then
        readMantissa base rest
          ⟨st.value * base + (c - 48), if st.sawDot then st.frac + 1 else st.frac,
            st.sawDot, true, st.underscores⟩
      else
        match (if base = 16 then hexLetter c else none) with
        | some d =>
            readMantissa base rest
              ⟨st.value * base + d, if st.sawDot then st.frac + 1 else st.frac,
                st.sawDot, true, st.underscores⟩
        | none => (st, c :: rest)

/-- The exponent digit loop of `readFloat`: digits and underscores; the
exponent stops growing once it has reached 10000.  Returns the exponent,
whether an underscore was read, and the unread rest. -/
def readExpDigits : GoString → Nat → Bool → Nat × Bool × GoString
  | [], e, u => (e, u, [])
  | c :: rest, e, u =>
      if c = 95 then readExpDigits rest e true
      else if isDigit c then readExpDigits rest (if e < 10000 then e * 10 + (c - 48) else e) u
      else (e, u, c :: rest)

/-- The optional exponent of `readFloat`, after the exponent letter has been
read: an optional sign and at least one digit.  Returns the signed exponent,
whether an underscore was read, and the unread rest; `none` on a syntax error. -/
def readExponent (s : GoString) : Option (Int × Bool × GoString) :=
  match s with
  | [] => none
  | c :: rest =>
      let neg := decide (c = 45)
      let body := if c = 43 ∨ c = 45 then rest else c :: rest
      match body with
      | [] => none
      | d :: _ =>
          if isDigit d then
            match readExpDigits body 0 false with
            | (e, u, rest2) => some (if neg then -(e : Int) else (e : Int), u, rest2)
          else none

/-- The digit-separator check `underscoreOK` of strconv, after the optional
sign and base prefix: `saw` is the class of the previous byte (`0` digit,
`1` underscore, `2` anything else, `3` start of the number). -/
def underscoreScan (hex : Bool) : GoString → Nat → Bool
  | [], saw => saw != 1
  | c :: rest, saw =>
      if isDigit c || (hex && (hexLetter c).isSome) then underscoreScan hex rest 0
      else if c = 95 then (if saw = 0 then underscoreScan hex rest 1 else false)
      else if saw = 1 then false
      else underscoreScan hex rest 2

/-- The check `underscoreOK` of strconv: underscores only between digits (or
between a base prefix and a digit). -/
def underscoreOK (s : GoString) : Bool :=
  let t := match s with
    | c :: rest => if c = 45 ∨ c = 43 then rest else s
    | [] => s
  match t with
  | a :: b :: rest =>
      if a = 48 ∧ (lowerByte b = 98 ∨ lowerByte b = 111 ∨ lowerByte b = 120) then
        underscoreScan (lowerByte b == 120) rest 0
      else underscoreScan false t 3
  | _ => underscoreScan false t 3

/-- The special values accepted by `ParseFloat`: `inf` and `infinity` with an
optional sign and `nan` without one, in any letter case. -/
def special (s : GoString) : Option Float64 :=
  let low := s.map lowerByte
  if low = [105, 110, 102] ∨ low = [105, 110, 102, 105, 110, 105, 116, 121] then
    some (Float64.inf false)
  else if low = 43 :: [105, 110, 102] ∨ low = 43 :: [105, 110, 102, 105, 110, 105, 116, 121] then
    some (Float64.inf false)
  else if low = 45 :: [105, 110, 102] ∨ low = 45 :: [105, 110, 102, 105, 110, 105, 116, 121] then
    some (Float64.inf true)
  else if low = [110, 97, 110] then some Float64.nan
  else none

/-- The number syntax of `ParseFloat` (`readFloat`, applied to the whole
string): sign, mantissa in base 10 or 16, optional exponent.  Returns the sign,
the exact value as a fraction `num / den`, or `none` on a syntax error. -/
def readFloat (s : GoString) : Option (Bool × Nat × Nat) :=
  match s with
  | [] => none
  | c :: rest =>
      let neg := decide (c = 45)
      let t := if c = 43 ∨ c = 45 then rest else c :: rest
      let hex := match t with
        | a :: b :: _ :: _ => decide (a = 48) && decide (lowerByte b = 120)
        | _ => false
      let base := if hex then 16 else 10
      match readMantissa base (if hex then t.drop 2 else t) ⟨0, 0, false, false, false⟩ with
      | (m, rest2) =>
          if !m.sawDigits then none
          else
            let expChar := if hex then 112 else 101
            let tail : Option (Int × Bool × GoString) :=
              match rest2 with
              | x :: rest3 =>
                  if lowerByte x = expChar then readExponent rest3
                  else if hex then none else some (0, false, x :: rest3)
              | [] => if hex then none else some (0, false, [])
            match tail with
            | none => none
            | some (e, u, rest4) =>
                if rest4 ≠ [] then none
                else if (m.underscores || u) && !underscoreOK s then none
                else
                  let p : Int := if hex then e - 4 * (m.frac : Int) else e - (m.frac : Int)
                  let b := if hex then 2 else 10
                  some (neg, m.value * b ^ p.toNat, b ^ (-p).toNat)

/-- Function `strconv.ParseFloat(s, 64)`: a special value, or the correctly
rounded value of a well-formed number; a number too large for binary64 is a
range error, everything else a syntax error. -/
def ParseFloat (s : GoString) : Except NumError Float64 :=
  match special s with
  | some f => Except.ok f
  | none =>
    match readFloat s with
    | none => Except.error NumError.malformed
    | some (neg, num, den) =>
        match roundToFloat64 neg num den with
        | (f, overflow) => if overflow then Except.error NumError.outOfRange else Except.ok f

/-- The verb `%.2f` of package fmt on a `float64`: the exact value rounded to
two decimals (ties to even), a leading `-` when the sign bit is set, and
`NaN`, `+Inf`, `-Inf` for the special values. -/
def fmtFloat2 : Float64 → GoString
  | Float64.nan => [78, 97, 78]
  | Float64.inf neg => (if neg then 45 else 43) :: [73, 110, 102]
  | Float64.finite neg m e =>
      let r := roundHalfEven (m * 100 * 2 ^ e.toNat) (2 ^ (-e).toNat)
      (if neg then [45] else []) ++ natDigits (r / 100) ++ [46, 48 + r / 10 % 10, 48 + r % 10]

/-! ## The regular expressions of the extractors -/

/-- Whether the byte next to a position, if any, is a word character. -/
def isWordAt (c : Option Nat) : Bool :=
  match c with
  | some b => isWord b
  | none => false

/-- The assertion `\b` between the byte `before` and the byte `after` a
position (`none` at either end of the text): exactly one side is a word
character. -/
def wordBoundary (before after : Option Nat) : Bool := isWordAt before != isWordAt after

/-- The rest of `s` after the literal `lit`, when `s` starts with it. -/
def dropLiteral : GoString → GoString → Option GoString
  | [], s => some s
  | _ :: _, [] => none
  | a :: lit, b :: s => if a = b then dropLiteral lit s else none

/-- Match of `AED\s+([\d,]+\.\d{2})\b` at the start of `s` (the leading `\b` is
checked by the caller); the result is capture group 1.  Each greedy repetition
reads a maximal run: the byte that must follow it is outside its class, so no
shorter run can lead to a match. -/
def matchPriceHere (s : GoString) : Option GoString :=
  match dropLiteral [65, 69, 68] s with
  | none => none
  | some r1 =>
      if r1.takeWhile isSpace = [] then none
      else
        let r2 := r1.dropWhile isSpace
        let amount := r2.takeWhile isDigitOrComma
        if amount = [] then none
        else
          match r2.dropWhile isDigitOrComma with
          | p :: d1 :: d2 :: r3 =>
              if p = 46 ∧ isDigit d1 ∧ isDigit d2 ∧ wordBoundary (some d2) r3.head? then
                some (amount ++ [46, d1, d2])
              else none
          | _ => none

/-- Leftmost match in a text of `\b` followed by a pattern, where `matchHere`
matches the pattern at the start of a string: the start positions are tried
from the left, `before` being the byte before the current position.  The
result is capture group 1 of `FindStringSubmatch`; `none` when there is no
match (the patterns of this program do not match the empty string). -/
def findLeftmost (matchHere : GoString → Option GoString) :
    Option Nat → GoString → Option GoString
  | _, [] => none
  | before, c :: rest =>
      match (if wordBoundary before (some c) then matchHere (c :: rest) else none) with
      | some m => some m
      | none => findLeftmost matchHere (some c) rest

/-- Leftmost match of `\bAED\s+([\d,]+\.\d{2})\b` in a text. -/
def findPrice (text : GoString) : Option GoString := findLeftmost matchPriceHere none text

/-- Match of `Model\s+Number\s*:\s*(\w+)\b` at the start of `s` (the leading
`\b` is checked by the caller); the result is capture group 1. -/
def matchModelHere (s : GoString) : Option GoString :=
  match dropLiteral [77, 111, 100, 101, 108] s with
  | none => none
  | some r1 =>
      if r1.takeWhile isSpace = [] then none
      else
        match dropLiteral [78, 117, 109, 98, 101, 114] (r1.dropWhile isSpace) with
        | none => none
        | some r2 =>
            match r2.dropWhile isSpace with
            | c :: r3 =>
                if c = 58 then
                  let r4 := r3.dropWhile isSpace
                  let token := r4.takeWhile isWord
                  if token ≠ [] ∧ wordBoundary token.getLast? (r4.dropWhile isWord).head? then
                    some token
                  else none
                else none
            | [] => none

/-- Leftmost match of `\bModel\s+Number\s*:\s*(\w+)\b` in a text. -/
def findModel (text : GoString) : Option GoString := findLeftmost matchModelHere none text

/-- The replacement `re.ReplaceAllString(cleanText, "$1,$2")` for the pattern
`([a-z])([A-Z])`: scanning from the left, a lowercase letter directly followed
by an uppercase letter is a match, rewritten with a comma between the two, and
the scan continues after the match. -/
def insertCommas : GoString → GoString
  | a :: b :: rest =>
      if isLower a ∧ isUpper b then a :: 44 :: b :: insertCommas rest
      else a :: insertCommas (b :: rest)
  | l => l

/-! ## The extractors -/

/-- The errors made by the extractors with `fmt.Errorf`. -/
inductive ExtractError where
  /-- The error "price not found". -/
  | priceNotFound
  /-- The error "failed to parse price: %w", wrapping the strconv error. -/
  | priceParseFailed (cause : NumError)
  /-- The error "model number not found". -/
  | modelNumberNotFound
  deriving DecidableEq, Repr

/-- Function `extractPrice`: the returned pair `(price, err)`. -/
def extractPrice (text : GoString) : Float64 × Option ExtractError :=
  let cleanText := replaceNBSP text
  match findPrice cleanText with
  | none => (Float64.zero, some ExtractError.priceNotFound)
  | some priceText =>
      match ParseFloat (removeCommas priceText) with
      | Except.error err => (Float64.zero, some (ExtractError.priceParseFailed err))
      | Except.ok price => (price, none)

/-- Function `extractCategory`.  The index `len(categories)-1` is always in
range: `strings.Split` with a non-empty separator returns at least one
segment (`splitCommaAux_ne_nil`). -/
def extractCategory (text : GoString) : GoString :=
  let cleanText := replaceNBSP text
  let result := insertCommas cleanText
  let categories := splitComma result
  categories.getLastD []

/-- Function `extractModelNumber`: the returned pair `(model, err)`. -/
def extractModelNumber (text : GoString) : GoString × Option ExtractError :=
  let cleanText := replaceNBSP text
  match findModel cleanText with
  | none => ([], some ExtractError.modelNumberNotFound)
  | some model => (model, none)

/-! ## Product and its CSV row -/

/-- The struct `Product`; a nil pointer is `none`. -/
structure Product where
  Category : GoString
  Website : GoString
  Title : GoString
  SellingPrice : Float64
  PriceBeforeDiscount : Option Float64
  Currency : GoString
  ProductURL : GoString
  SKU : GoString
  Brand : GoString
  RatingScore : Option Float64
  RatingCount : Option Int
  Rank : Int
  IsBestSeller : Bool
  deriving DecidableEq, Repr

/-- Method `Product.ToCSVRow`: the format
`"%s,%s,%s,%.2f,%s,%s,%s,%s,%s,%s,%d\n"` applied to the eleven arguments. -/
def Product.ToCSVRow (p : Product) : GoString :=
  let priceBeforeDiscount :=
    match p.PriceBeforeDiscount with
    | some v => fmtFloat2 v
    | none => []
  let ratingScore :=
    match p.RatingScore with
    | some v => fmtFloat2 v
    | none => []
  let ratingCount :=
    match p.RatingCount with
    | some v => Itoa v
    | none => []
  p.Category ++ 44 :: (p.Website ++ 44 :: (p.Title ++ 44 :: (fmtFloat2 p.SellingPrice ++ 44 ::
    (priceBeforeDiscount ++ 44 :: (p.Currency ++ 44 :: (p.ProductURL ++ 44 :: (p.Brand ++ 44 ::
    (ratingScore ++ 44 :: (ratingCount ++ 44 :: (Itoa p.Rank ++ [10]))))))))))

/-! ## The stream stages of `main` -/

/-- The raw field bag sent on the channel by the detail-page handler: the
`map[string]interface{}` with its eight string entries and its boolean entry. -/
structure RawFieldBag where
  title : GoString
  categories : GoString
  sellingPrice : GoString
  priceBeforeDiscount : GoString
  productURL : GoString
  brand : GoString
  SKU : GoString
  rating : GoString
  isBestSeller : Bool
  deriving DecidableEq, Repr

/-- The slice expression `s[3:]`; it panics (`none`) when `len(s) < 3`. -/
def sliceFrom3 (s : GoString) : Option GoString :=
  if 3 ≤ s.length then some (s.drop 3) else none

/-- The slice expression `s[:3]`; it panics (`none`) when `len(s) < 3`. -/
def sliceTo3 (s : GoString) : Option GoString :=
  if 3 ≤ s.length then some (s.take 3) else none

/-- The predicate given to `flow.NewFilter`; `none` when it panics. -/
def filterPredicate (item : RawFieldBag) : Option Bool :=
  let isBestSeller := item.isBestSeller
  let counted : Option Int :=
    if item.rating ≠ [] then
      match sliceFrom3 item.rating with
      | none => none
      | some tail =>
          match Atoi tail with
          | some count => some count
          | none => some 0
    else some 0
  match counted with
  | none => none
  | some ratingCount => some (isBestSeller || decide (ratingCount > 100))

/-- The function given to the first `flow.NewMap`, from a raw bag to a
`Product`, with the global counter `totalProducts` passed in and out; `none`
when it panics. -/
def extractType (totalProducts : Int) (item : RawFieldBag) : Option (Product × Int) :=
  let total := wrapInt64 (totalProducts + 1)
  let sellingPrice := (extractPrice item.sellingPrice).1
  let priceBeforeDiscount : Option Float64 :=
    if item.priceBeforeDiscount ≠ [] then some (extractPrice item.priceBeforeDiscount).1
    else none
  let ratings : Option (Option Float64 × Option Int) :=
    if item.rating ≠ [] then
      match sliceTo3 item.rating with
      | none => none
      | some head =>
          let ratingScore :=
            match ParseFloat head with
            | Except.ok score => some score
            | Except.error _ => none
          match sliceFrom3 item.rating with
          | none => none
          | some tail => some (ratingScore, Atoi tail)
    else some (none, none)
  let SKU := if item.SKU ≠ [] then (extractModelNumber item.SKU).1 else []
  match ratings with
  | none => none
  | some (ratingScore, ratingCount) =>
      some (
        { Category := extractCategory item.categories
          Title := removeCommas item.title
          Website := bytes "noon"
          SellingPrice := sellingPrice
          PriceBeforeDiscount := priceBeforeDiscount
          Currency := bytes "AED"
          ProductURL := item.productURL
          SKU := SKU
          Brand := item.brand
          RatingScore := ratingScore
          RatingCount := ratingCount
          Rank := total
          IsBestSeller := false },
        total)

/-- The result of running a stage of parallelism 1 over the items that arrive,
in order: the items it emitted, and whether the run ended in a panic. -/
structure StageRun (α : Type) where
  emitted : List α
  panicked : Bool

/-- The filter stage: items are tested one after the other; a panic of the
predicate ends the run. -/
def filterStage : List RawFieldBag → StageRun RawFieldBag
  | [] => ⟨[], false⟩
  | item :: rest =>
      match filterPredicate item with
      | none => ⟨[], true⟩
      | some keep =>
          let run := filterStage rest
          ⟨if keep then item :: run.emitted else run.emitted, run.panicked⟩

/-- The Extract/Type stage: items are converted one after the other, threading
the counter `totalProducts`; a panic ends the run. -/
def mapStage : Int → List RawFieldBag → StageRun Product
  | _, [] => ⟨[], false⟩
  | total, item :: rest =>
      match extractType total item with
      | none => ⟨[], true⟩
      | some (product, total2) =>
          let run := mapStage total2 rest
          ⟨product :: run.emitted, run.panicked⟩

/-- The serialise stage: the second `flow.NewMap`, `product.ToCSVRow()`. -/
def serializeStage (products : List Product) : List GoString :=
  products.map Product.ToCSVRow

/-! ## The crawler of `pkg/crawler` and the dispatch of detail visits

The collector of the colly library is an external collaborator.  What the
handlers registered on it rely on is taken from its documentation: the
OnRequest callbacks run on every request the collector makes, a request
re-issued by `Request.Retry` included, with the context of the request; the
OnError callbacks run when an attempt fails; an OnHTML callback runs once for
every element of a retrieved page that matches its selector; `Wait` returns
when no fetch of the collector is in flight. -/

/-- The value that `strconv.Atoi` returns next to its error, which the OnError
handler uses without looking at the error: 0 on a syntax error and the nearest
bound of `int` on a range error. -/
def atoiValue (s : GoString) : Int :=
  match Atoi s with
  | some v => v
  | none =>
      match s with
      | [] => 0
      | c :: rest =>
          if c = 45 then
            match parseDigits rest with
            | some _ => -(2 ^ 63)
            | none => 0
          else
            match parseDigits (if c = 43 then rest else c :: rest) with
            | some _ => 2 ^ 63 - 1
            | none => 0

/-- The context `r.Ctx` of a request, reduced to its entry `retryCount`
(`Get` returns the empty string for a key that was never put). -/
structure RequestCtx where
  retryCount : GoString
  deriving DecidableEq, Repr

/-- The OnRequest handler of `NewCrawler`: `r.Ctx.Put("retryCount", "0")`. -/
def onRequest (_ctx : RequestCtx) : RequestCtx := ⟨bytes "0"⟩

/-- The OnError handler of `NewCrawler`: the context it leaves, and whether it
called `r.Request.Retry()` (`true`) or logged the terminal failure (`false`).
The sum `retryCount+1` is formed only below 3 and cannot overflow. -/
def onError (ctx : RequestCtx) : RequestCtx × Bool :=
  let retryCount := atoiValue ctx.retryCount
  if retryCount < 3 then (⟨Itoa (retryCount + 1)⟩, true) else (ctx, false)

/-- What became of a fetch: how many times the request was re-issued, and
whether the handler abandoned it (logged the terminal failure). -/
structure FetchTrace where
  retries : Nat
  abandoned : Bool
  deriving DecidableEq, Repr

/-- A fetch whose every attempt fails, followed for at most `fuel` attempts.
Each attempt runs the OnRequest handler, fails, and runs the OnError handler;
`Retry` issues the next attempt from inside the handler, with the same
context. -/
def failingFetch : Nat → RequestCtx → FetchTrace
  | 0, _ => ⟨0, false⟩
  | fuel + 1, ctx =>
      match onError (onRequest ctx) with
      | (ctx2, true) => ⟨(failingFetch fuel ctx2).retries + 1, (failingFetch fuel ctx2).abandoned⟩
      | (_, false) => ⟨0, true⟩

/-- How a dispatched detail-page visit ends, as the handlers see it: the page
was retrieved and `matching` of its elements match `div[id=__next]`, or the
fetch failed (abandoned after its retries, or refused by `Visit`). -/
inductive VisitOutcome where
  | fetched (matching : Nat)
  | failed
  deriving DecidableEq, Repr

/-- The effect on the counter of `wg` of one run of the handler registered with
`pdpCrawler.OnHTML`: its `defer wg.Done()`, which takes one off the counter and
panics ("sync: negative WaitGroup counter", `none`) when the counter is
already 0. -/
def detailHandlerDone : Nat → Option Nat
  | 0 => none
  | wg + 1 => some wg

/-- The handler registered with `pdpCrawler.OnHTML` run `matching` times, once
for each matching element of the page; a panic ends the runs. -/
def detailHandlerRuns : Nat → Nat → Option Nat
  | 0, wg => some wg
  | matching + 1, wg =>
      match detailHandlerDone wg with
      | some wg2 => detailHandlerRuns matching wg2
      | none => none

/-- The counter of `wg` after one dispatched visit that starts with the counter
at `wg`: the goroutine does `wg.Add(1)` and calls `pdpCrawler.Visit`; the
OnHTML handler runs once for each matching element; the OnError handler of
`NewCrawler` never touches `wg`.  The result is `none` when a `wg.Done()`
panics. -/
def dispatchedVisit (wg : Nat) : VisitOutcome → Option Nat
  | VisitOutcome.fetched matching => detailHandlerRuns matching (wg + 1)
  | VisitOutcome.failed => some (wg + 1)

/-- Where the goroutine of a dispatched detail visit stands. -/
inductive VisitPc where
  /-- The statement `go func() {...}()` has run; the goroutine has not started. -/
  | launched
  /-- After `wg.Add(1)`. -/
  | counted
  /-- Inside `pdpCrawler.Visit`, up to the send `ch <- productRaw` of the handler. -/
  | visiting
  /-- The bag was received, the deferred `wg.Done()` has run, `Visit` returned. -/
  | finished
  deriving DecidableEq, Repr

/-- Where the completion goroutine (`pdpCrawler.Wait(); wg.Wait(); close(ch)`)
stands; `idle` while the loop over the list pages still runs. -/
inductive CoordPc where
  | idle
  | launched
  | crawlerWaited
  | counterWaited
  | closed
  deriving DecidableEq, Repr

/-- The shared state of a run of `main`. -/
structure RunState where
  visits : List VisitPc
  coordinator : CoordPc
  wg : Int
  channelClosed : Bool
  /-- A send on the closed channel happened (a run-time panic). -/
  sendOnClosed : Bool
  deriving DecidableEq, Repr

/-- The atomic steps of the goroutines of `main`. -/
inductive Action where
  /-- The list-page handler runs `go func() {...}()` for a product link. -/
  | dispatch
  /-- The loop over the list pages returns and the completion goroutine is launched. -/
  | listLoopEnds
  /-- The goroutine of visit `i` runs `wg.Add(1)`. -/
  | visitAdd (i : Nat)
  /-- The goroutine of visit `i` calls `pdpCrawler.Visit(link)`. -/
  | visitStart (i : Nat)
  /-- The handler of visit `i` sends its bag on `ch`, then its deferred `wg.Done()` runs
  (also when the send panics on a closed channel). -/
  | visitSend (i : Nat)
  /-- The completion goroutine returns from `pdpCrawler.Wait()`. -/
  | crawlerWait
  /-- The completion goroutine returns from `wg.Wait()`. -/
  | counterWait
  /-- The completion goroutine runs `close(ch)`. -/
  | close
  deriving DecidableEq, Repr

/-- The state at the start of the loop over the list pages. -/
def RunState.initial : RunState := ⟨[], CoordPc.idle, 0, false, false⟩

/-- One step of a run; `none` when the step cannot be taken in the state. -/
def step (s : RunState) : Action → Option RunState
  | Action.dispatch =>
      if s.coordinator = CoordPc.idle then
        some ⟨s.visits ++ [VisitPc.launched], s.coordinator, s.wg, s.channelClosed, s.sendOnClosed⟩
      else none
  | Action.listLoopEnds =>
      if s.coordinator = CoordPc.idle then
        some ⟨s.visits, CoordPc.launched, s.wg, s.channelClosed, s.sendOnClosed⟩
      else none
  | Action.visitAdd i =>
      if s.visits[i]? = some VisitPc.launched then
        some ⟨s.visits.set i VisitPc.counted, s.coordinator, s.wg + 1, s.channelClosed,
          s.sendOnClosed⟩
      else none
  | Action.visitStart i =>
      if s.visits[i]? = some VisitPc.counted then
        some ⟨s.visits.set i VisitPc.visiting, s.coordinator, s.wg, s.channelClosed,
          s.sendOnClosed⟩
      else none
  | Action.visitSend i =>
      if s.visits[i]? = some VisitPc.visiting then
        if s.channelClosed then
          some ⟨s.visits, s.coordinator, s.wg - 1, s.channelClosed, true⟩
        else if s.coordinator = CoordPc.idle then none
        else
          some ⟨s.visits.set i VisitPc.finished, s.coordinator, s.wg - 1, s.channelClosed,
            s.sendOnClosed⟩
      else none
  | Action.crawlerWait =>
      if s.coordinator = CoordPc.launched ∧ s.visits.all (fun v => v != VisitPc.visiting) then
        some ⟨s.visits, CoordPc.crawlerWaited, s.wg, s.channelClosed, s.sendOnClosed⟩
      else none
  | Action.counterWait =>
      if s.coordinator = CoordPc.crawlerWaited ∧ s.wg = 0 then
        some ⟨s.visits, CoordPc.counterWaited, s.wg, s.channelClosed, s.sendOnClosed⟩
      else none
  | Action.close =>
      if s.coordinator = CoordPc.counterWaited then
        some ⟨s.visits, CoordPc.closed, s.wg, true, s.sendOnClosed⟩
      else none

/-- A run: the steps of a schedule taken one after the other. -/
def run : List Action → RunState → Option RunState
  | [], s => some s
  | a :: schedule, s =>
      match step s a with
      | some s2 => run schedule s2
      | none => none

/-! ## Reading of the claims -/

/-- The rating count the filter compares with 100, as the specification words
it: the integer written after the first 3 bytes of the rating string, and 0
when the string is empty or that remainder does not parse as an `int`. -/
def ratingCountOf (rating : GoString) : Int := (Atoi (rating.drop 3)).getD 0

/-- A rating string on which the slice expressions `[:3]` and `[3:]` are
defined whenever they are evaluated: it is empty (the guard skips them) or it
has at least 3 bytes. -/
def Sliceable (rating : GoString) : Prop := rating = [] ∨ 3 ≤ rating.length

instance (rating : GoString) : Decidable (Sliceable rating) := by
  unfold Sliceable; infer_instance

/-- A rendering with two decimal places: an integer part, a point, two digits. -/
def TwoDecimals (s : GoString) : Prop :=
  ∃ (intPart : GoString) (d1 d2 : Nat),
    s = intPart ++ [46, d1, d2] ∧ intPart ≠ [] ∧ 46 ∉ intPart ∧
    isDigit d1 = true ∧ isDigit d2 = true

/-- A string without a comma byte. -/
def NoComma (s : GoString) : Prop := 44 ∉ s

instance (s : GoString) : Decidable (NoComma s) := by
  unfold NoComma; infer_instance

/-- A bag with a 2-byte rating string. -/
def shortRatingBag : RawFieldBag :=
  { title := bytes "Beard trimmer", categories := bytes "BeautyMen",
    sellingPrice := bytes "AED 89.00", priceBeforeDiscount := [],
    productURL := bytes "https://www.noon.com/p/2", brand := bytes "Acme",
    SKU := bytes "Model Number: T800", rating := bytes "10", isBestSeller := false }

/-- A bag whose rating string has neither a number in its first 3 bytes nor
one after them. -/
def wordyRatingBag : RawFieldBag :=
  { title := bytes "Beard trimmer", categories := bytes "BeautyMen",
    sellingPrice := bytes "AED 89.00", priceBeforeDiscount := [],
    productURL := bytes "https://www.noon.com/p/2", brand := bytes "Acme",
    SKU := bytes "Model Number: T800", rating := bytes "No ratings yet",
    isBestSeller := true }

/-- A bag whose price texts and model text match none of the patterns. -/
def noPriceBag : RawFieldBag :=
  { title := bytes "Razor, 5 blades", categories := bytes "BeautyMenShaving",
    sellingPrice := bytes "Sold out", priceBeforeDiscount := bytes "N/A",
    productURL := bytes "https://www.noon.com/p/3", brand := bytes "Acme",
    SKU := bytes "SKU: 999", rating := bytes "4.5120", isBestSeller := false }

/-- A bag of a discounted product, all of whose texts match. -/
def fullBag : RawFieldBag :=
  { title := bytes "Razor, 5 blades, blue", categories := bytes "BeautyMenShaving",
    sellingPrice := bytes "AED 1,234.56 incl. VAT", priceBeforeDiscount := bytes "AED 1,500.00",
    productURL := bytes "https://www.noon.com/p/4", brand := bytes "Acme",
    SKU := bytes "Model Number: ABC123", rating := bytes "4.5120", isBestSeller := false }

/-- The bag `fullBag` with a comma in its brand. -/
def commaBrandBag : RawFieldBag :=
  { title := bytes "Razor, 5 blades, blue", categories := bytes "BeautyMenShaving",
    sellingPrice := bytes "AED 1,234.56 incl. VAT", priceBeforeDiscount := bytes "AED 1,500.00",
    productURL := bytes "https://www.noon.com/p/4", brand := bytes "Acme, Inc.",
    SKU := bytes "Model Number: ABC123", rating := bytes "4.5120", isBestSeller := false }

/-- A match of `\b` followed by a pattern inside the text `s`: the text is
`pre ++ post`, the position between the two is a `\b` (the byte before the
text being `before`), and the pattern matches at the start of `post` with
capture group `cap`. -/
def MatchAt (matchHere : GoString → Option GoString) (before : Option Nat)
    (s pre post cap : GoString) : Prop :=
  s = pre ++ post ∧ post ≠ [] ∧
    wordBoundary (pre.getLast?.or before) post.head? = true ∧ matchHere post = some cap

/-- An occurrence of the price pattern in a text: after `pre`, at a word
boundary, the letters `AED`, one or more whitespace bytes, an amount of one or
more digits and commas, a point and two digits, ending at a word boundary
before `post`. -/
def PriceOccurrence (clean pre amount : GoString) (d1 d2 : Nat) (post : GoString) : Prop :=
  ∃ ws : GoString,
    clean = pre ++ ([65, 69, 68] ++ (ws ++ (amount ++ (46 :: d1 :: d2 :: post)))) ∧
    wordBoundary pre.getLast? (some 65) = true ∧
    ws ≠ [] ∧ (∀ c ∈ ws, isSpace c = true) ∧
    amount ≠ [] ∧ (∀ c ∈ amount, isDigitOrComma c = true) ∧
    isDigit d1 = true ∧ isDigit d2 = true ∧
    wordBoundary (some d2) post.head? = true

/-- An occurrence of the model-number pattern in a text: after `pre`, at a word
boundary, the word `Model`, one or more whitespace bytes, the word `Number`,
optional whitespace, a colon, optional whitespace, and a token: a maximal run
of one or more word characters (letters, digits, underscore), before `post`. -/
def ModelOccurrence (clean pre token post : GoString) : Prop :=
  ∃ ws1 ws2 ws3 : GoString,
    clean = pre ++ ([77, 111, 100, 101, 108] ++ (ws1 ++ ([78, 117, 109, 98, 101, 114] ++
      (ws2 ++ (58 :: (ws3 ++ (token ++ post))))))) ∧
    wordBoundary pre.getLast? (some 77) = true ∧
    ws1 ≠ [] ∧ (∀ c ∈ ws1, isSpace c = true) ∧
    (∀ c ∈ ws2, isSpace c = true) ∧ (∀ c ∈ ws3, isSpace c = true) ∧
    token ≠ [] ∧ (∀ c ∈ token, isWord c = true) ∧
    (∀ b, post.head? = some b → isWord b = false)

/-- Letters and digits. -/
def isAlnum (c : Nat) : Bool := isDigit c || isUpper c || isLower c

/-- Whether a string has a lowercase-to-uppercase letter boundary: a lowercase
ASCII letter directly followed by an uppercase ASCII letter. -/
def hasCaseBoundary : GoString → Bool
  | a :: b :: rest => (isLower a && isUpper b) || hasCaseBoundary (b :: rest)
  | _ => false

/-- Whether a string holds the two bytes `C2 A0` of a no-break space. -/
def hasNBSP : GoString → Bool
  | a :: b :: rest => (a == 0xC2 && b == 0xA0) || hasNBSP (b :: rest)
  | _ => false

/-- The place where a category segment starts: `pre` is what precedes the
segment `r` in the text.  The segment starts the text, or follows a comma, or
follows a lowercase letter and itself starts with an uppercase letter. -/
def StartsSegment (pre r : GoString) : Prop :=
  pre = [] ∨ pre.getLast? = some 44 ∨
    ∃ a b, pre.getLast? = some a ∧ r.head? = some b ∧ isLower a = true ∧ isUpper b = true

/-- A price text whose amount is 10^309: `AED 1` followed by 309 zeros and `.00`. -/
def hugePriceText : GoString := bytes "AED 1" ++ List.replicate 309 48 ++ bytes ".00"

/-- A Product without previous price and without rating. -/
def plainProduct : Product :=
  { Category := bytes "Men", Website := bytes "noon", Title := bytes "Beard trimmer",
    SellingPrice := Float64.finite false 6262818231812096 (-46),
    PriceBeforeDiscount := none, Currency := bytes "AED",
    ProductURL := bytes "https://www.noon.com/p/2", SKU := bytes "T800", Brand := bytes "Acme",
    RatingScore := none, RatingCount := none, Rank := 1, IsBestSeller := false }

/-- The rating count computed by the predicate given to `flow.NewFilter`
(`var ratingCount int`, set from `strconv.Atoi(rating[3:])` when the rating
string is not empty and the conversion succeeds); `none` when the slice
expression panics. -/
def filterRatingCount (item : RawFieldBag) : Option Int :=
  if item.rating ≠ [] then
    match sliceFrom3 item.rating with
    | none => none
    | some tail =>
        match Atoi tail with
        | some count => some count
        | none => some 0
  else some 0

/-- Whether a `float64` lies between 0 and 5 (bounds included): it is finite,
it is not below zero, and its magnitude `m * 2^e` is at most 5. -/
def Float64.between0and5 : Float64 → Bool
  | Float64.finite neg m e =>
      (decide (m = 0) || !neg) && decide (m * 2 ^ e.toNat ≤ 5 * 2 ^ (-e).toNat)
  | _ => false

/-- A bag whose rating string spells the score 9.9 and the count -12. -/
def outOfRangeRatingBag : RawFieldBag :=
  { title := bytes "Beard trimmer", categories := bytes "BeautyMen",
    sellingPrice := bytes "AED 89.00", priceBeforeDiscount := [],
    productURL := bytes "https://www.noon.com/p/5", brand := bytes "Acme",
    SKU := bytes "Model Number: T800", rating := bytes "9.9-12", isBestSeller := true }

/-- A bag of a best seller with 12 ratings. -/
def bestSellerBag : RawFieldBag :=
  { title := bytes "Beard trimmer", categories := bytes "BeautyMen",
    sellingPrice := bytes "AED 89.00", priceBeforeDiscount := [],
    productURL := bytes "https://www.noon.com/p/6", brand := bytes "Acme",
    SKU := bytes "Model Number: T800", rating := bytes "4.812", isBestSeller := true }

/-- Whether a `float64` is finite (neither an infinity nor NaN). -/
def Float64.isFinite : Float64 → Bool
  | Float64.finite _ _ _ => true
  | _ => false

/-- A bag whose rating string starts with `NaN`. -/
def nanRatingBag : RawFieldBag :=
  { title := bytes "Beard trimmer", categories := bytes "BeautyMen",
    sellingPrice := bytes "AED 89.00", priceBeforeDiscount := [],
    productURL := bytes "https://www.noon.com/p/7", brand := bytes "Acme",
    SKU := bytes "Model Number: T800", rating := bytes "NaN7", isBestSeller := true }

/-- A bag whose rating string starts with `inf` and counts 250 ratings. -/
def infRatingBag : RawFieldBag :=
  { title := bytes "Beard trimmer", categories := bytes "BeautyMen",
    sellingPrice := bytes "AED 89.00", priceBeforeDiscount := [],
    productURL := bytes "https://www.noon.com/p/8", brand := bytes "Acme",
    SKU := bytes "Model Number: T800", rating := bytes "inf250", isBestSeller := false }

/-- The Product built from `fullBag` by a fresh Extract/Type stage. -/
def fullProduct : Product := ((extractType 0 fullBag).map Prod.fst).getD plainProduct

/-! ## The filter stage -/

theorem filterPredicate_of_sliceable (item : RawFieldBag) (h : Sliceable item.rating) :
    filterPredicate item
      = some (item.isBestSeller || decide (ratingCountOf item.rating > 100)) := by
  unfold filterPredicate ratingCountOf sliceFrom3
  rcases h with h | h
  · simp [h, Atoi]
  · have hne : item.rating ≠ [] := by
      intro h0; rw [h0] at h; simp at h
    simp only [hne, ne_eq, not_false_eq_true, if_true, h]
    cases Atoi (List.drop 3 item.rating) <;> simp

theorem filterPredicate_eq_none_iff (item : RawFieldBag) :
    filterPredicate item = none ↔ ¬ Sliceable item.rating := by
  constructor
  · intro h hs
    rw [filterPredicate_of_sliceable item hs] at h
    exact Option.noConfusion h
  · intro h
    unfold Sliceable at h
    have hne : item.rating ≠ [] := fun h0 => h (Or.inl h0)
    have hlt : ¬ 3 ≤ item.rating.length := fun h0 => h (Or.inr h0)
    simp [filterPredicate, sliceFrom3, hne, hlt]

theorem filterStage_sublist (items : List RawFieldBag) :
    List.Sublist (filterStage items).emitted items := by
  induction items with
  | nil => simp [filterStage]
  | cons item rest ih =>
      unfold filterStage
      cases hp : filterPredicate item with
      | none => simp
      | some keep =>
          cases keep
          · simpa using List.Sublist.cons item ih
          · simpa using List.Sublist.cons₂ item ih

theorem filterStage_emitted_kept (items : List RawFieldBag) :
    ∀ item ∈ (filterStage items).emitted, filterPredicate item = some true := by
  induction items with
  | nil => simp [filterStage]
  | cons item rest ih =>
      unfold filterStage
      cases hp : filterPredicate item with
      | none => simp
      | some keep =>
          cases keep
          · simpa using ih
          · intro x hx
            simp only [if_true, List.mem_cons] at hx
            rcases hx with hx | hx
            · rw [hx]; exact hp
            · exact ih x hx

/-- Filter stage on well-formed rating strings: when every arriving bag has a
rating string that is empty or at least 3 bytes long, the stage does not panic,
its output is exactly the arriving bags that satisfy
`isBestSeller || ratingCount > 100`, in order; so it is a sub-sequence of the
input, no longer than it. -/
theorem filterStage_of_sliceable (items : List RawFieldBag)
    (h : ∀ item ∈ items, Sliceable item.rating) :
    (filterStage items).panicked = false ∧
    (filterStage items).emitted
      = items.filter (fun item => item.isBestSeller || decide (ratingCountOf item.rating > 100)) ∧
    List.Sublist (filterStage items).emitted items ∧
    (filterStage items).emitted.length ≤ items.length := by
  have key : (filterStage items).panicked = false ∧
      (filterStage items).emitted
        = items.filter
            (fun item => item.isBestSeller || decide (ratingCountOf item.rating > 100)) := by
    induction items with
    | nil => simp [filterStage]
    | cons item rest ih =>
        have h1 := filterPredicate_of_sliceable item (h item (List.mem_cons_self _ _))
        have h2 := ih (fun x hx => h x (List.mem_cons_of_mem _ hx))
        unfold filterStage
        rw [h1]
        simp only [h2.1, h2.2, List.filter_cons]
        cases hb : (item.isBestSeller || decide (ratingCountOf item.rating > 100)) <;> simp
  exact ⟨key.1, key.2, filterStage_sublist items,
    List.Sublist.length_le (filterStage_sublist items)⟩

/-- Claim C1, at the input where the code departs from it: a bag whose rating
string is the single byte `5` and whose isBestSeller flag is true.  The claim
keeps it (the flag is true); the predicate evaluates `rating[3:]` on a 1-byte
string and panics, so nothing is kept. -/
theorem filterPredicate_short_rating_panics :
    filterPredicate
      { title := bytes "Shaver", categories := bytes "BeautyMen",
        sellingPrice := bytes "AED 10.00", priceBeforeDiscount := [],
        productURL := bytes "https://www.noon.com/p/1", brand := bytes "Acme",
        SKU := [], rating := bytes "5", isBestSeller := true } = none ∧
    (true || decide (ratingCountOf (bytes "5") > 100)) = true := by
  decide

/-! ## The Extract/Type stage -/

theorem wrapInt64_succ (k : Int) (h0 : 0 ≤ k) (h1 : k + 1 < 2 ^ 63) :
    wrapInt64 (k + 1) = k + 1 := by
  unfold wrapInt64
  norm_num at h1 ⊢
  omega

/-- Every field of the `Product` built by `extractType`, and the counter it
leaves, when it does not panic. -/
theorem extractType_fields (n : Int) (item : RawFieldBag) (p : Product) (n2 : Int)
    (h : extractType n item = some (p, n2)) :
    Sliceable item.rating ∧ n2 = wrapInt64 (n + 1) ∧ p.Rank = wrapInt64 (n + 1) ∧
    p.Category = extractCategory item.categories ∧
    p.Website = bytes "noon" ∧
    p.Title = removeCommas item.title ∧
    p.SellingPrice = (extractPrice item.sellingPrice).1 ∧
    p.PriceBeforeDiscount
      = (if item.priceBeforeDiscount ≠ [] then some (extractPrice item.priceBeforeDiscount).1
         else none) ∧
    p.Currency = bytes "AED" ∧
    p.ProductURL = item.productURL ∧
    p.SKU = (if item.SKU ≠ [] then (extractModelNumber item.SKU).1 else []) ∧
    p.Brand = item.brand ∧
    p.RatingScore
      = (if item.rating ≠ [] then
          (match ParseFloat (item.rating.take 3) with
           | Except.ok score => some score
           | Except.error _ => none)
         else none) ∧
    p.RatingCount = (if item.rating ≠ [] then Atoi (item.rating.drop 3) else none) ∧
    p.IsBestSeller = false := by
  unfold extractType at h
  by_cases h0 : item.rating = []
  · simp only [h0, ne_eq, not_true_eq_false, if_false, Option.some.injEq, Prod.mk.injEq] at h
    obtain ⟨hp, hn⟩ := h
    subst hp
    simp [Sliceable, h0, hn]
  · by_cases h3 : 3 ≤ item.rating.length
    · simp only [h0, ne_eq, not_false_eq_true, if_true, sliceTo3, sliceFrom3, h3,
        Option.some.injEq, Prod.mk.injEq] at h
      obtain ⟨hp, hn⟩ := h
      subst hp
      simp [Sliceable, h0, h3, hn]
    · simp [h0, sliceTo3, h3] at h

theorem extractType_isSome_of_sliceable (n : Int) (item : RawFieldBag)
    (h : Sliceable item.rating) : ∃ p, extractType n item = some (p, wrapInt64 (n + 1)) := by
  unfold extractType
  by_cases h0 : item.rating = []
  · simp [h0]
  · have h3 : 3 ≤ item.rating.length := by
      rcases h with h | h
      · exact absurd h h0
      · exact h
    simp [h0, sliceTo3, sliceFrom3, h3]

theorem extractType_eq_none_iff (n : Int) (item : RawFieldBag) :
    extractType n item = none ↔ ¬ Sliceable item.rating := by
  constructor
  · intro h hs
    obtain ⟨p, hp⟩ := extractType_isSome_of_sliceable n item hs
    rw [hp] at h
    exact Option.noConfusion h
  · intro h
    cases hx : extractType n item with
    | none => rfl
    | some r =>
        obtain ⟨p, n2⟩ := r
        exact absurd (extractType_fields n item p n2 hx).1 h

theorem mapStage_index (bags : List RawFieldBag) :
    ∀ (k : Int), 0 ≤ k → k + bags.length < 2 ^ 63 →
    ∀ (n : Nat) (p : Product), (mapStage k bags).emitted[n]? = some p →
      p.Rank = k + n + 1 ∧
      ∃ bag, bags[n]? = some bag ∧ extractType (k + n) bag = some (p, k + n + 1) := by
  induction bags with
  | nil => intro k _ _ n p h; simp [mapStage] at h
  | cons item rest ih =>
      intro k h0 h1 n p h
      have hlen : k + 1 < 2 ^ 63 := by
        simp only [List.length_cons, Nat.cast_add, Nat.cast_one] at h1
        omega
      unfold mapStage at h
      cases hx : extractType k item with
      | none => simp [hx] at h
      | some r =>
          obtain ⟨q, k2⟩ := r
          have hf := extractType_fields k item q k2 hx
          have hk2 : k2 = k + 1 := by rw [hf.2.1, wrapInt64_succ k h0 hlen]
          simp only [hx] at h
          cases n with
          | zero =>
              simp only [List.getElem?_cons_zero, Option.some.injEq] at h
              subst h
              refine ⟨by rw [hf.2.2.1, wrapInt64_succ k h0 hlen]; simp, item, by simp, ?_⟩
              simp [hx, hk2]
          | succ m =>
              simp only [List.getElem?_cons_succ] at h
              have h1b : k2 + rest.length < 2 ^ 63 := by
                simp only [List.length_cons, Nat.cast_add, Nat.cast_one] at h1
                omega
              obtain ⟨hr, bag, hb, he⟩ := ih k2 (by omega) h1b m p h
              refine ⟨by rw [hr, hk2]; push_cast; ring, bag, by simpa using hb, ?_⟩
              have e1 : k + ((m + 1 : Nat) : Int) = k2 + m := by rw [hk2]; push_cast; ring
              rw [e1, he]

theorem mapStage_increasing (bags : List RawFieldBag) :
    ∀ (k : Int), 0 ≤ k → k + bags.length < 2 ^ 63 →
      (∀ p ∈ (mapStage k bags).emitted, k < p.Rank) ∧
      List.Pairwise (fun p q : Product => p.Rank < q.Rank) (mapStage k bags).emitted := by
  induction bags with
  | nil => intro k _ _; simp [mapStage]
  | cons item rest ih =>
      intro k h0 h1
      have hlen : k + 1 < 2 ^ 63 := by
        simp only [List.length_cons, Nat.cast_add, Nat.cast_one] at h1
        omega
      unfold mapStage
      cases hx : extractType k item with
      | none => simp
      | some r =>
          obtain ⟨q, k2⟩ := r
          have hf := extractType_fields k item q k2 hx
          have hk2 : k2 = k + 1 := by rw [hf.2.1, wrapInt64_succ k h0 hlen]
          have hq : q.Rank = k + 1 := by rw [hf.2.2.1, wrapInt64_succ k h0 hlen]
          have h1b : k2 + rest.length < 2 ^ 63 := by
            simp only [List.length_cons, Nat.cast_add, Nat.cast_one] at h1
            omega
          obtain ⟨ha, hb⟩ := ih k2 (by omega) h1b
          simp only [List.mem_cons, List.pairwise_cons]
          refine ⟨?_, ?_, hb⟩
          · intro x hx2
            rcases hx2 with hx2 | hx2
            · rw [hx2, hq]; omega
            · have := ha x hx2; omega
          · intro x hx2
            have := ha x hx2; omega

theorem mapStage_total (bags : List RawFieldBag) :
    ∀ (k : Int), (∀ bag ∈ bags, Sliceable bag.rating) →
      (mapStage k bags).emitted.length = bags.length ∧ (mapStage k bags).panicked = false := by
  induction bags with
  | nil => intro k _; simp [mapStage]
  | cons item rest ih =>
      intro k h
      obtain ⟨p, hp⟩ := extractType_isSome_of_sliceable k item (h item (List.mem_cons_self _ _))
      have h2 := ih (wrapInt64 (k + 1)) (fun x hx => h x (List.mem_cons_of_mem _ hx))
      unfold mapStage
      rw [hp]
      simp [h2.1, h2.2]

/-- Claim C2: starting from a fresh counter (`totalProducts = 0`), the Product
produced for the N-th bag (the bag at index `n = N - 1`) has Rank N, whatever
the bags contain; so the ranks are positive and strictly increasing in
emission order.  A product is produced for every bag when no rating string
makes the stage panic.  The length bound is the range of Go's 64-bit `int`
counter. -/
theorem mapStage_rank (bags : List RawFieldBag) (hlen : bags.length < 2 ^ 63) :
    (∀ (n : Nat) (p : Product), (mapStage 0 bags).emitted[n]? = some p →
      p.Rank = (n : Int) + 1 ∧
      ∃ bag, bags[n]? = some bag ∧ extractType n bag = some (p, (n : Int) + 1)) ∧
    List.Pairwise (fun p q : Product => p.Rank < q.Rank) (mapStage 0 bags).emitted ∧
    (∀ p ∈ (mapStage 0 bags).emitted, 0 < p.Rank) ∧
    ((∀ bag ∈ bags, Sliceable bag.rating) →
      (mapStage 0 bags).emitted.length = bags.length ∧
      (mapStage 0 bags).panicked = false) := by
  have hl : (0 : Int) + bags.length < 2 ^ 63 := by
    have : (bags.length : Int) < 2 ^ 63 := by exact_mod_cast hlen
    omega
  refine ⟨?_, (mapStage_increasing bags 0 le_rfl hl).2,
    (mapStage_increasing bags 0 le_rfl hl).1, mapStage_total bags 0⟩
  intro n p h
  have := mapStage_index bags 0 le_rfl hl n p h
  simpa using this

/-- Witness of `mapStage_rank` on a stream of two bags. -/
theorem mapStage_rank_witness :
    [fullBag, noPriceBag].length < 2 ^ 63 ∧
    List.Pairwise (fun p q : Product => p.Rank < q.Rank)
      (mapStage 0 [fullBag, noPriceBag]).emitted ∧
    (mapStage 0 [fullBag, noPriceBag]).emitted.length = [fullBag, noPriceBag].length :=
  ⟨by decide, (mapStage_rank [fullBag, noPriceBag] (by decide)).2.1,
    ((mapStage_rank [fullBag, noPriceBag] (by decide)).2.2.2 (by decide)).1⟩

/-- Claim C6, at the input where the code departs from it: a bag whose rating
string is the 2 bytes `10`.  The guard `item["rating"] != ""` lets it through
and both stages evaluate a slice at index 3 of a 2-byte string: the filter
predicate and the Extract/Type function panic instead of leaving the rating
fields absent.  A rating string of 3 bytes or more that holds no number goes
through both stages and leaves both fields absent. -/
theorem stages_panic_on_short_rating :
    filterPredicate shortRatingBag = none ∧
    extractType 0 shortRatingBag = none ∧
    filterPredicate wordyRatingBag = some true ∧
    (extractType 0 wordyRatingBag).map (fun r => (r.1.RatingScore, r.1.RatingCount))
      = some (none, none) := by
  decide

/-- Both stages complete on a bag exactly when its rating string is empty or
at least 3 bytes long; then the score is parsed from the first 3 bytes and the
count from the rest, and a part that does not parse leaves its field absent. -/
theorem stages_complete_iff (n : Int) (item : RawFieldBag) :
    ((filterPredicate item).isSome = true ↔ Sliceable item.rating) ∧
    ((extractType n item).isSome = true ↔ Sliceable item.rating) ∧
    (∀ p n2, extractType n item = some (p, n2) →
      p.RatingScore
        = (if item.rating ≠ [] then
            (match ParseFloat (item.rating.take 3) with
             | Except.ok score => some score
             | Except.error _ => none)
           else none) ∧
      p.RatingCount = (if item.rating ≠ [] then Atoi (item.rating.drop 3) else none)) := by
  refine ⟨?_, ?_, ?_⟩
  · rw [← not_iff_not, ← filterPredicate_eq_none_iff]
    cases filterPredicate item <;> simp
  · rw [← not_iff_not, ← extractType_eq_none_iff n]
    cases extractType n item <;> simp
  · intro p n2 h
    have hf := extractType_fields n item p n2 h
    exact ⟨hf.2.2.2.2.2.2.2.2.2.2.2.2.1, hf.2.2.2.2.2.2.2.2.2.2.2.2.2.1⟩

/-! ## Price and model-number failures in the Extract/Type stage -/

theorem extractPrice_error_value (text : GoString) (h : (extractPrice text).2 ≠ none) :
    (extractPrice text).1 = Float64.zero := by
  unfold extractPrice at h ⊢
  cases hf : findPrice (replaceNBSP text) with
  | none => simp [hf]
  | some priceText =>
      simp only [hf] at h ⊢
      cases hp : ParseFloat (removeCommas priceText) with
      | error e => simp
      | ok v => simp [hp] at h

theorem extractModelNumber_error_value (text : GoString)
    (h : (extractModelNumber text).2 ≠ none) : (extractModelNumber text).1 = [] := by
  unfold extractModelNumber at h ⊢
  cases hf : findModel (replaceNBSP text) with
  | none => simp [hf]
  | some m => simp [hf] at h

/-- What the Extract/Type stage does with failed extractions: the product is
still built; a failed selling price leaves `SellingPrice` at 0 and a failed
model number leaves `SKU` empty; `PriceBeforeDiscount` is absent exactly when
the raw text is empty, and is a present 0 when the text is not empty and holds
no price. -/
theorem extractType_failed_extractions (n : Int) (item : RawFieldBag) (p : Product) (n2 : Int)
    (h : extractType n item = some (p, n2)) :
    ((extractPrice item.sellingPrice).2 ≠ none → p.SellingPrice = Float64.zero) ∧
    ((extractModelNumber item.SKU).2 ≠ none → p.SKU = []) ∧
    (p.PriceBeforeDiscount = none ↔ item.priceBeforeDiscount = []) ∧
    (item.priceBeforeDiscount ≠ [] → (extractPrice item.priceBeforeDiscount).2 ≠ none →
      p.PriceBeforeDiscount = some Float64.zero) := by
  have hf := extractType_fields n item p n2 h
  refine ⟨?_, ?_, ?_, ?_⟩
  · intro he
    rw [hf.2.2.2.2.2.2.1]
    exact extractPrice_error_value _ he
  · intro he
    rw [hf.2.2.2.2.2.2.2.2.2.2.1]
    by_cases h0 : item.SKU = []
    · simp [h0]
    · simp only [ne_eq, h0, not_false_eq_true, if_true]
      exact extractModelNumber_error_value _ he
  · rw [hf.2.2.2.2.2.2.2.1]
    by_cases h0 : item.priceBeforeDiscount = [] <;> simp [h0]
  · intro h0 he
    rw [hf.2.2.2.2.2.2.2.1]
    simp only [ne_eq, h0, not_false_eq_true, if_true]
    rw [extractPrice_error_value _ he]

/-- Claim C10, at the input where the code departs from it: a bag whose
priceBeforeDiscount text is `N/A`.  No price can be extracted from it
("price not found"), and the claim leaves `PriceBeforeDiscount` absent; the
code stores the address of the zero it got back, so the field is a present 0
and the row shows `0.00` in its column.  The selling price and the SKU of the
same bag are left at 0 and at the empty string, as the claim says. -/
theorem priceBeforeDiscount_present_zero :
    (extractPrice noPriceBag.priceBeforeDiscount).2 = some ExtractError.priceNotFound ∧
    (extractType 0 noPriceBag).map (fun r => r.1.PriceBeforeDiscount)
      = some (some Float64.zero) ∧
    (extractType 0 noPriceBag).map (fun r => (r.1.SellingPrice, r.1.SKU))
      = some (Float64.zero, []) ∧
    (extractType 0 noPriceBag).map (fun r => r.1.ToCSVRow)
      = some (bytes "Shaving,noon,Razor 5 blades,0.00,0.00,AED,https://www.noon.com/p/3,Acme,4.50,120,1\n") := by
  decide

/-! ## Commas in rendered values -/

theorem isDigit_add (n : Nat) (h : n < 10) : isDigit (48 + n) = true := by
  unfold isDigit
  simp
  omega

theorem natDigitsAux_mem (fuel : Nat) :
    ∀ (n : Nat) (acc : GoString) (c : Nat),
      c ∈ natDigitsAux fuel n acc → c ∈ acc ∨ isDigit c = true := by
  induction fuel with
  | zero => intro n acc c h; exact Or.inl (by simpa [natDigitsAux] using h)
  | succ fuel ih =>
      intro n acc c h
      unfold natDigitsAux at h
      by_cases h10 : n < 10
      · simp only [h10, if_true, List.mem_cons] at h
        rcases h with h | h
        · right; rw [h]; exact isDigit_add n h10
        · exact Or.inl h
      · simp only [h10, if_false] at h
        rcases ih _ _ c h with h2 | h2
        · simp only [List.mem_cons] at h2
          rcases h2 with h2 | h2
          · right; rw [h2]; exact isDigit_add _ (Nat.mod_lt _ (by norm_num))
          · exact Or.inl h2
        · exact Or.inr h2

theorem natDigitsAux_ne_nil (fuel : Nat) :
    ∀ (n : Nat) (acc : GoString), acc ≠ [] ∨ 0 < fuel → natDigitsAux fuel n acc ≠ [] := by
  induction fuel with
  | zero =>
      intro n acc h
      rcases h with h | h
      · simpa [natDigitsAux] using h
      · exact absurd h (lt_irrefl 0)
  | succ fuel ih =>
      intro n acc _
      unfold natDigitsAux
      by_cases h10 : n < 10
      · simp [h10]
      · simp only [h10, if_false]
        exact ih _ _ (Or.inl (List.cons_ne_nil _ _))

theorem natDigits_digits (n c : Nat) (h : c ∈ natDigits n) : isDigit c = true := by
  rcases natDigitsAux_mem _ _ _ c h with h2 | h2
  · simp at h2
  · exact h2

theorem natDigits_ne_nil (n : Nat) : natDigits n ≠ [] :=
  natDigitsAux_ne_nil _ _ _ (Or.inr (Nat.succ_pos n))

theorem Itoa_mem (i : Int) (c : Nat) (h : c ∈ Itoa i) : c = 45 ∨ isDigit c = true := by
  unfold Itoa at h
  split at h
  · simp only [List.mem_cons] at h
    rcases h with h | h
    · exact Or.inl h
    · exact Or.inr (natDigits_digits _ _ h)
  · exact Or.inr (natDigits_digits _ _ h)

theorem Itoa_noComma (i : Int) : NoComma (Itoa i) := by
  intro h
  rcases Itoa_mem i 44 h with h2 | h2
  · exact absurd h2 (by decide)
  · exact absurd h2 (by decide)

theorem Itoa_ne_nil (i : Int) : Itoa i ≠ [] := by
  unfold Itoa
  split
  · exact List.cons_ne_nil _ _
  · exact natDigits_ne_nil _

/-- The rendering of a finite value by `%.2f` has two decimal places. -/
theorem fmtFloat2_finite (neg : Bool) (m : Nat) (e : Int) :
    TwoDecimals (fmtFloat2 (Float64.finite neg m e)) := by
  unfold fmtFloat2 TwoDecimals
  refine ⟨(if neg = true then [45] else []) ++
      natDigits (roundHalfEven (m * 100 * 2 ^ e.toNat) (2 ^ (-e).toNat) / 100), _, _, rfl,
    ?_, ?_, ?_, ?_⟩
  · simp [natDigits_ne_nil]
  · intro h
    simp only [List.mem_append] at h
    rcases h with h | h
    · cases neg <;> simp at h
    · exact absurd (natDigits_digits _ _ h) (by decide)
  · exact isDigit_add _ (Nat.mod_lt _ (by norm_num))
  · exact isDigit_add _ (Nat.mod_lt _ (by norm_num))

theorem fmtFloat2_ne_nil (v : Float64) : fmtFloat2 v ≠ [] := by
  cases v with
  | nan => simp [fmtFloat2]
  | inf neg => simp [fmtFloat2]
  | finite neg m e =>
      obtain ⟨a, d1, d2, h, _⟩ := fmtFloat2_finite neg m e
      rw [h]; simp

theorem fmtFloat2_noComma (v : Float64) : NoComma (fmtFloat2 v) := by
  cases v with
  | nan => unfold NoComma fmtFloat2; decide
  | inf neg => cases neg <;> (unfold NoComma fmtFloat2; decide)
  | finite neg m e =>
      unfold NoComma fmtFloat2
      intro h
      simp only [List.mem_append, List.mem_cons, List.mem_singleton] at h
      rcases h with (h | h) | h
      · cases neg <;> simp at h
      · exact absurd (natDigits_digits _ _ h) (by decide)
      · rcases h with h | h | h | h
        · exact absurd h (by decide)
        · omega
        · omega
        · simp at h

theorem removeCommas_noComma (s : GoString) : NoComma (removeCommas s) := by
  unfold NoComma removeCommas
  simp [List.mem_filter]

/-! ## strings.Split on commas -/

theorem splitCommaAux_noComma (a : GoString) :
    ∀ (cur : GoString), NoComma a → splitCommaAux a cur = [cur ++ a] := by
  induction a with
  | nil => intro cur _; simp [splitCommaAux]
  | cons c rest ih =>
      intro cur h
      have hc : c ≠ 44 := fun h0 => h (by simp [h0])
      have hr : NoComma rest := fun h0 => h (List.mem_cons_of_mem _ h0)
      unfold splitCommaAux
      simp [hc, ih _ hr]

theorem splitCommaAux_append (a rest : GoString) :
    ∀ (cur : GoString), NoComma a →
      splitCommaAux (a ++ 44 :: rest) cur = (cur ++ a) :: splitCommaAux rest [] := by
  induction a with
  | nil => intro cur _; simp [splitCommaAux]
  | cons c tl ih =>
      intro cur h
      have hc : c ≠ 44 := fun h0 => h (by simp [h0])
      have hr : NoComma tl := fun h0 => h (List.mem_cons_of_mem _ h0)
      simp only [List.cons_append]
      rw [splitCommaAux]
      simp [hc, ih _ hr]

theorem splitComma_noComma (a : GoString) (h : NoComma a) : splitComma a = [a] := by
  simpa [splitComma] using splitCommaAux_noComma a [] h

theorem splitComma_append (a rest : GoString) (h : NoComma a) :
    splitComma (a ++ 44 :: rest) = a :: splitComma rest := by
  simpa [splitComma] using splitCommaAux_append a rest [] h

theorem splitCommaAux_segments (s : GoString) :
    ∀ (cur : GoString), NoComma cur → ∀ seg ∈ splitCommaAux s cur, NoComma seg := by
  induction s with
  | nil => intro cur h seg hs; simp [splitCommaAux] at hs; rw [hs]; exact h
  | cons c rest ih =>
      intro cur h seg hs
      unfold splitCommaAux at hs
      by_cases hc : c = 44
      · simp only [hc, if_true, List.mem_cons] at hs
        rcases hs with hs | hs
        · rw [hs]; exact h
        · exact ih [] (by simp [NoComma]) seg hs
      · simp only [hc, if_false] at hs
        refine ih (cur ++ [c]) ?_ seg hs
        intro h0
        simp only [List.mem_append, List.mem_singleton] at h0
        rcases h0 with h0 | h0
        · exact h h0
        · exact hc h0.symm

theorem splitCommaAux_ne_nil (s : GoString) : ∀ (cur : GoString), splitCommaAux s cur ≠ [] := by
  induction s with
  | nil => intro cur; simp [splitCommaAux]
  | cons c rest ih =>
      intro cur
      unfold splitCommaAux
      split
      · exact List.cons_ne_nil _ _
      · exact ih _

theorem extractCategory_mem (text : GoString) :
    extractCategory text ∈ splitComma (insertCommas (replaceNBSP text)) := by
  unfold extractCategory
  have hne := splitCommaAux_ne_nil (insertCommas (replaceNBSP text)) []
  simp only [splitComma]
  rw [List.getLastD_eq_getLast?, List.getLast?_eq_getLast _ hne]
  exact List.getLast_mem hne

theorem extractCategory_noComma (text : GoString) : NoComma (extractCategory text) :=
  splitCommaAux_segments _ [] (by simp [NoComma]) _ (extractCategory_mem text)

/-! ## The CSV row -/

theorem twoDecimals_has_point (s : GoString) (h : TwoDecimals s) : 46 ∈ s := by
  obtain ⟨intPart, d1, d2, hs, _⟩ := h
  rw [hs]
  simp

theorem fmtFloat2_twoDecimals_iff (v : Float64) :
    TwoDecimals (fmtFloat2 v) ↔ v.isFinite = true := by
  cases v with
  | finite neg m e => exact ⟨fun _ => rfl, fun _ => fmtFloat2_finite neg m e⟩
  | inf neg =>
      constructor
      · intro h
        have := twoDecimals_has_point _ h
        cases neg <;> exact absurd this (by decide)
      · intro h; exact Bool.noConfusion h
  | nan =>
      constructor
      · intro h
        exact absurd (twoDecimals_has_point _ h) (by decide)
      · intro h; exact absurd h (by decide)

/-- Claim C7 as stated fails: a present score is not always rendered with 2
decimal places.  From the rating strings `NaN7` and `inf250` the Extract/Type
stage builds Products whose RatingScore is present and is NaN and +Inf
(`strconv.ParseFloat` accepts both spellings); `ToCSVRow` renders them `NaN`
and `+Inf`, which have no decimal places. -/
theorem row_with_nan_score :
    (extractType 0 nanRatingBag).map (fun r => (r.1.RatingScore, r.1.ToCSVRow))
      = some (some Float64.nan,
          bytes "Men,noon,Beard trimmer,89.00,,AED,https://www.noon.com/p/7,Acme,NaN,7,1\n") ∧
    filterPredicate infRatingBag = some true ∧
    (extractType 0 infRatingBag).map (fun r => (r.1.RatingScore, r.1.ToCSVRow))
      = some (some (Float64.inf false),
          bytes "Men,noon,Beard trimmer,89.00,,AED,https://www.noon.com/p/8,Acme,+Inf,250,1\n") ∧
    ¬ TwoDecimals (fmtFloat2 Float64.nan) ∧
    ¬ TwoDecimals (fmtFloat2 (Float64.inf false)) :=
  ⟨by decide, by decide, by decide,
    fun h => absurd ((fmtFloat2_twoDecimals_iff _).mp h) (by decide),
    fun h => absurd ((fmtFloat2_twoDecimals_iff _).mp h) (by decide)⟩

/-- Claim C7, amended: in the row of every Product, the columns of the three
optional fields sit between the fixed columns as shown, and each of them is the
empty string exactly when its field is absent (so never `0`, `0.00` or `null`
for an absent field) and the rendering of the value when the field is present:
the decimal digits for the count, and the verb `%.2f` for the two prices and
the score, which has two decimal places exactly when the value is finite and
is `NaN`, `+Inf` or `-Inf` when it is not. -/
theorem ToCSVRow_optional_fields (p : Product) :
    ∃ c5 c9 c10 : GoString,
      p.ToCSVRow
        = p.Category ++ 44 :: (p.Website ++ 44 :: (p.Title ++ 44 ::
          (fmtFloat2 p.SellingPrice ++ 44 :: (c5 ++ 44 :: (p.Currency ++ 44 ::
          (p.ProductURL ++ 44 :: (p.Brand ++ 44 :: (c9 ++ 44 :: (c10 ++ 44 ::
          (Itoa p.Rank ++ [10])))))))))) ∧
      (c5 = [] ↔ p.PriceBeforeDiscount = none) ∧
      (c9 = [] ↔ p.RatingScore = none) ∧
      (c10 = [] ↔ p.RatingCount = none) ∧
      (p.PriceBeforeDiscount = none → c5 ≠ bytes "0" ∧ c5 ≠ bytes "0.00" ∧ c5 ≠ bytes "null") ∧
      (p.RatingScore = none → c9 ≠ bytes "0" ∧ c9 ≠ bytes "0.00" ∧ c9 ≠ bytes "null") ∧
      (p.RatingCount = none → c10 ≠ bytes "0" ∧ c10 ≠ bytes "0.00" ∧ c10 ≠ bytes "null") ∧
      (∀ v, p.PriceBeforeDiscount = some v →
        c5 = fmtFloat2 v ∧ (TwoDecimals c5 ↔ v.isFinite = true)) ∧
      (∀ v, p.RatingScore = some v →
        c9 = fmtFloat2 v ∧ (TwoDecimals c9 ↔ v.isFinite = true)) ∧
      (∀ v, p.RatingCount = some v → c10 = Itoa v) ∧
      (∀ neg m e, TwoDecimals (fmtFloat2 (Float64.finite neg m e))) ∧
      (∀ v, TwoDecimals (fmtFloat2 v) ↔ v.isFinite = true) ∧
      fmtFloat2 Float64.nan = bytes "NaN" ∧
      fmtFloat2 (Float64.inf false) = bytes "+Inf" ∧
      fmtFloat2 (Float64.inf true) = bytes "-Inf" := by
  refine ⟨(match p.PriceBeforeDiscount with | some v => fmtFloat2 v | none => []),
    (match p.RatingScore with | some v => fmtFloat2 v | none => []),
    (match p.RatingCount with | some v => Itoa v | none => []), rfl, ?_, ?_, ?_, ?_, ?_, ?_,
    ?_, ?_, ?_, fmtFloat2_finite, fmtFloat2_twoDecimals_iff, by decide, by decide, by decide⟩
  · cases p.PriceBeforeDiscount <;> simp [fmtFloat2_ne_nil]
  · cases p.RatingScore <;> simp [fmtFloat2_ne_nil]
  · cases p.RatingCount <;> simp [Itoa_ne_nil]
  · intro h; rw [h]; decide
  · intro h; rw [h]; decide
  · intro h; rw [h]; decide
  · intro v h; rw [h]; exact ⟨rfl, fmtFloat2_twoDecimals_iff v⟩
  · intro v h; rw [h]; exact ⟨rfl, fmtFloat2_twoDecimals_iff v⟩
  · intro v h; rw [h]

/-- Witness of `ToCSVRow_optional_fields` on a Product whose three optional
fields are present (a previous price of 1500, a score of 4.5, 120 ratings), and
on a Product without previous price and without rating. -/
theorem ToCSVRow_optional_fields_witness :
    (fullProduct.PriceBeforeDiscount = some (roundToFloat64 false 150000 100).1 ∧
      fullProduct.RatingScore = some (roundToFloat64 false 45 10).1 ∧
      fullProduct.RatingCount = some 120 ∧
      fullProduct.ToCSVRow
        = bytes "Shaving,noon,Razor 5 blades blue,1234.56,1500.00,AED,https://www.noon.com/p/4,Acme,4.50,120,1\n" ∧
      ∃ c5 c9 c10 : GoString,
        fullProduct.ToCSVRow
          = fullProduct.Category ++ 44 :: (fullProduct.Website ++ 44 :: (fullProduct.Title ++ 44 ::
            (fmtFloat2 fullProduct.SellingPrice ++ 44 :: (c5 ++ 44 :: (fullProduct.Currency ++ 44 ::
            (fullProduct.ProductURL ++ 44 :: (fullProduct.Brand ++ 44 :: (c9 ++ 44 :: (c10 ++ 44 ::
            (Itoa fullProduct.Rank ++ [10])))))))))) ∧
        c5 = bytes "1500.00" ∧ TwoDecimals c5 ∧
        c9 = bytes "4.50" ∧ TwoDecimals c9 ∧
        c10 = bytes "120") ∧
    (plainProduct.PriceBeforeDiscount = none ∧ plainProduct.RatingScore = none ∧
      plainProduct.RatingCount = none ∧
      plainProduct.ToCSVRow
        = bytes "Men,noon,Beard trimmer,89.00,,AED,https://www.noon.com/p/2,Acme,,,1\n" ∧
      ∃ c5 c9 c10 : GoString,
        plainProduct.ToCSVRow
          = plainProduct.Category ++ 44 :: (plainProduct.Website ++ 44 :: (plainProduct.Title ++ 44 ::
            (fmtFloat2 plainProduct.SellingPrice ++ 44 :: (c5 ++ 44 :: (plainProduct.Currency ++ 44 ::
            (plainProduct.ProductURL ++ 44 :: (plainProduct.Brand ++ 44 :: (c9 ++ 44 :: (c10 ++ 44 ::
            (Itoa plainProduct.Rank ++ [10])))))))))) ∧
        c5 = [] ∧ c9 = [] ∧ c10 = []) := by
  have hp : fullProduct.PriceBeforeDiscount = some (roundToFloat64 false 150000 100).1 := by
    decide
  have hs : fullProduct.RatingScore = some (roundToFloat64 false 45 10).1 := by decide
  have hc : fullProduct.RatingCount = some 120 := by decide
  refine ⟨⟨hp, hs, hc, by decide, ?_⟩, ⟨rfl, rfl, rfl, by decide, ?_⟩⟩
  · obtain ⟨c5, c9, c10, h, _, _, _, _, _, _, h5, h9, h10, _⟩ :=
      ToCSVRow_optional_fields fullProduct
    have e5 := (h5 _ hp).1
    have e9 := (h9 _ hs).1
    exact ⟨c5, c9, c10, h, e5.trans (by decide), ((h5 _ hp).2).mpr (by decide),
      e9.trans (by decide), ((h9 _ hs).2).mpr (by decide), (h10 _ hc).trans (by decide)⟩
  · obtain ⟨c5, c9, c10, h, h5, h9, h10, _⟩ := ToCSVRow_optional_fields plainProduct
    exact ⟨c5, c9, c10, h, h5.2 rfl, h9.2 rfl, h10.2 rfl⟩

theorem getLast_append_comma (a b : GoString) (hb : b ≠ []) :
    (a ++ 44 :: b).getLast? = b.getLast? := by
  induction a with
  | nil =>
      cases b with
      | nil => exact absurd rfl hb
      | cons x xs => simp [List.getLast?_cons_cons]
  | cons c tl ih =>
      cases htl : tl ++ 44 :: b with
      | nil => simp at htl
      | cons x xs =>
          rw [List.cons_append, htl, List.getLast?_cons_cons, ← htl, ih]

theorem ToCSVRow_split (p : Product) (hcat : NoComma p.Category) (hweb : NoComma p.Website)
    (htitle : NoComma p.Title) (hcur : NoComma p.Currency) (hurl : NoComma p.ProductURL)
    (hbrand : NoComma p.Brand) :
    splitComma p.ToCSVRow
      = [p.Category, p.Website, p.Title, fmtFloat2 p.SellingPrice,
          (p.PriceBeforeDiscount.map fmtFloat2).getD [], p.Currency, p.ProductURL, p.Brand,
          (p.RatingScore.map fmtFloat2).getD [], (p.RatingCount.map Itoa).getD [],
          Itoa p.Rank ++ [10]] := by
  have h5 : NoComma (match p.PriceBeforeDiscount with | some v => fmtFloat2 v | none => []) := by
    cases p.PriceBeforeDiscount
    · simp [NoComma]
    · exact fmtFloat2_noComma _
  have h9 : NoComma (match p.RatingScore with | some v => fmtFloat2 v | none => []) := by
    cases p.RatingScore
    · simp [NoComma]
    · exact fmtFloat2_noComma _
  have h10 : NoComma (match p.RatingCount with | some v => Itoa v | none => []) := by
    cases p.RatingCount
    · simp [NoComma]
    · exact Itoa_noComma _
  have h11 : NoComma (Itoa p.Rank ++ [10]) := by
    intro h
    simp only [List.mem_append, List.mem_singleton] at h
    rcases h with h | h
    · exact Itoa_noComma _ h
    · exact absurd h (by decide)
  unfold Product.ToCSVRow
  simp only []
  rw [splitComma_append _ _ hcat, splitComma_append _ _ hweb, splitComma_append _ _ htitle,
    splitComma_append _ _ (fmtFloat2_noComma _), splitComma_append _ _ h5,
    splitComma_append _ _ hcur, splitComma_append _ _ hurl, splitComma_append _ _ hbrand,
    splitComma_append _ _ h9, splitComma_append _ _ h10, splitComma_noComma _ h11]
  cases p.PriceBeforeDiscount <;> cases p.RatingScore <;> cases p.RatingCount <;> rfl

/-- Claim C8 as stated fails: the row produced for a bag whose brand is
`Acme, Inc.` splits into 12 comma-separated values, not 11. -/
theorem row_with_comma_in_brand :
    (extractType 0 commaBrandBag).map (fun r => splitComma r.1.ToCSVRow)
      = some [bytes "Shaving", bytes "noon", bytes "Razor 5 blades blue", bytes "1234.56",
          bytes "1500.00", bytes "AED", bytes "https://www.noon.com/p/4", bytes "Acme",
          bytes " Inc.", bytes "4.50", bytes "120", bytes "1\n"] ∧
    (extractType 0 commaBrandBag).map (fun r => (splitComma r.1.ToCSVRow).length) = some 12 := by
  decide

/-- Claim C8, amended: for every raw field bag whose brand and productURL
contain no comma, the row produced for it (Extract/Type, then ToCSVRow) splits
at its commas into exactly 11 values, the last one followed by the newline that
ends the row, and these are the Product's Category, Website, Title,
SellingPrice, PriceBeforeDiscount, Currency, ProductURL, Brand, RatingScore,
RatingCount and Rank, in the order of the header row.  A row is produced
whenever the rating string does not make the stage panic. -/
theorem row_eleven_values (n : Int) (item : RawFieldBag)
    (hbrand : NoComma item.brand) (hurl : NoComma item.productURL) :
    (Sliceable item.rating → (extractType n item).isSome = true) ∧
    ∀ p n2, extractType n item = some (p, n2) →
      splitComma p.ToCSVRow
        = [p.Category, p.Website, p.Title, fmtFloat2 p.SellingPrice,
            (p.PriceBeforeDiscount.map fmtFloat2).getD [], p.Currency, p.ProductURL, p.Brand,
            (p.RatingScore.map fmtFloat2).getD [], (p.RatingCount.map Itoa).getD [],
            Itoa p.Rank ++ [10]] ∧
      (splitComma p.ToCSVRow).length = 11 ∧
      p.ToCSVRow.getLast? = some 10 := by
  refine ⟨?_, ?_⟩
  · intro hs
    obtain ⟨p, hp⟩ := extractType_isSome_of_sliceable n item hs
    rw [hp]; rfl
  · intro p n2 h
    have hf := extractType_fields n item p n2 h
    have hsplit := ToCSVRow_split p
      (by rw [hf.2.2.2.1]; exact extractCategory_noComma _)
      (by rw [hf.2.2.2.2.1]; decide)
      (by rw [hf.2.2.2.2.2.1]; exact removeCommas_noComma _)
      (by rw [hf.2.2.2.2.2.2.2.2.1]; decide)
      (by rw [hf.2.2.2.2.2.2.2.2.2.1]; exact hurl)
      (by rw [hf.2.2.2.2.2.2.2.2.2.2.2.1]; exact hbrand)
    refine ⟨hsplit, by rw [hsplit]; rfl, ?_⟩
    unfold Product.ToCSVRow
    simp only []
    rw [getLast_append_comma _ _ (by simp), getLast_append_comma _ _ (by simp),
      getLast_append_comma _ _ (by simp), getLast_append_comma _ _ (by simp),
      getLast_append_comma _ _ (by simp), getLast_append_comma _ _ (by simp),
      getLast_append_comma _ _ (by simp), getLast_append_comma _ _ (by simp),
      getLast_append_comma _ _ (by simp), getLast_append_comma _ _ (by simp)]
    simp

/-- Witness of `row_eleven_values` on a bag whose brand and URL have no comma. -/
theorem row_eleven_values_witness :
    NoComma fullBag.brand ∧ NoComma fullBag.productURL ∧
    (extractType 0 fullBag).isSome = true ∧
    ∀ p n2, extractType 0 fullBag = some (p, n2) → (splitComma p.ToCSVRow).length = 11 :=
  ⟨by decide, by decide,
    (row_eleven_values 0 fullBag (by decide) (by decide)).1 (by decide),
    fun p n2 h => ((row_eleven_values 0 fullBag (by decide) (by decide)).2 p n2 h).2.1⟩

/-- Claim C9: the Title built by the Extract/Type stage is the raw title with
every comma byte removed and every other byte kept, in order; it contains no
comma, and `ToCSVRow` writes it unchanged as the third comma-separated value of
the row.  A Product is built whenever the rating string does not make the stage
panic. -/
theorem title_commas_removed (n : Int) (item : RawFieldBag) :
    (Sliceable item.rating → (extractType n item).isSome = true) ∧
    ∀ p n2, extractType n item = some (p, n2) →
      p.Title = item.title.filter (fun c => c != 44) ∧
      NoComma p.Title ∧
      (∃ rest, p.ToCSVRow = p.Category ++ 44 :: (p.Website ++ 44 :: (p.Title ++ 44 :: rest))) ∧
      (splitComma p.ToCSVRow)[2]? = some p.Title := by
  refine ⟨?_, ?_⟩
  · intro hs
    obtain ⟨p, hp⟩ := extractType_isSome_of_sliceable n item hs
    rw [hp]; rfl
  · intro p n2 h
    have hf := extractType_fields n item p n2 h
    have hcat : NoComma p.Category := by rw [hf.2.2.2.1]; exact extractCategory_noComma _
    have hweb : NoComma p.Website := by rw [hf.2.2.2.2.1]; decide
    have htitle : NoComma p.Title := by rw [hf.2.2.2.2.2.1]; exact removeCommas_noComma _
    refine ⟨?_, htitle, ⟨_, rfl⟩, ?_⟩
    · rw [hf.2.2.2.2.2.1]
      rfl
    · unfold Product.ToCSVRow
      simp only []
      rw [splitComma_append _ _ hcat, splitComma_append _ _ hweb, splitComma_append _ _ htitle]
      simp

/-- Witness of `title_commas_removed` on a bag whose title has two commas. -/
theorem title_commas_removed_witness :
    44 ∈ fullBag.title ∧ (extractType 0 fullBag).isSome = true ∧
    ∀ p n2, extractType 0 fullBag = some (p, n2) →
      p.Title = bytes "Razor 5 blades blue" ∧ (splitComma p.ToCSVRow)[2]? = some p.Title :=
  ⟨by decide, (title_commas_removed 0 fullBag).1 (by decide), fun p n2 h =>
    ⟨((title_commas_removed 0 fullBag).2 p n2 h).1.trans (by decide),
      ((title_commas_removed 0 fullBag).2 p n2 h).2.2.2⟩⟩

/-! ## extractCategory -/

theorem hasCaseBoundary_iff (s : GoString) :
    hasCaseBoundary s = true ↔
      ∃ pre a b post, s = pre ++ a :: b :: post ∧ isLower a = true ∧ isUpper b = true := by
  induction s with
  | nil => simp [hasCaseBoundary]
  | cons a tl ih =>
      cases tl with
      | nil =>
          simp only [hasCaseBoundary, Bool.false_eq_true, false_iff, not_exists]
          intro pre x y post h
          have := congrArg List.length h.1
          simp at this
          omega
      | cons b rest =>
          rw [hasCaseBoundary, Bool.or_eq_true, ih]
          constructor
          · rintro (h | ⟨pre, x, y, post, h, hx, hy⟩)
            · simp only [Bool.and_eq_true] at h
              exact ⟨[], a, b, rest, rfl, h.1, h.2⟩
            · exact ⟨a :: pre, x, y, post, by rw [h]; rfl, hx, hy⟩
          · rintro ⟨pre, x, y, post, h, hx, hy⟩
            cases pre with
            | nil =>
                simp only [List.nil_append, List.cons.injEq] at h
                left
                rw [h.1, h.2.1, hx, hy]; rfl
            | cons c pre2 =>
                simp only [List.cons_append, List.cons.injEq] at h
                exact Or.inr ⟨pre2, x, y, post, h.2, hx, hy⟩

theorem hasCaseBoundary_concat (cur : GoString) (a : Nat)
    (h : hasCaseBoundary cur = false)
    (hj : ∀ x, cur.getLast? = some x → ¬ (isLower x = true ∧ isUpper a = true)) :
    hasCaseBoundary (cur ++ [a]) = false := by
  induction cur with
  | nil => rfl
  | cons c tl ih =>
      cases tl with
      | nil =>
          have := hj c rfl
          simp only [List.cons_append, List.nil_append, hasCaseBoundary, Bool.or_false]
          simpa using this
      | cons d rest =>
          rw [hasCaseBoundary, Bool.or_eq_false_iff] at h
          have h2 := ih h.2 (fun x hx => hj x (by simpa [List.getLast?_cons_cons] using hx))
          simp only [List.cons_append] at h2 ⊢
          rw [hasCaseBoundary, Bool.or_eq_false_iff]
          exact ⟨h.1, h2⟩

theorem getLastD_cons_splitCommaAux (x : GoString) (s cur : GoString) :
    (x :: splitCommaAux s cur).getLastD [] = (splitCommaAux s cur).getLastD [] := by
  cases h : splitCommaAux s cur with
  | nil => exact absurd h (splitCommaAux_ne_nil s cur)
  | cons y ys => simp [List.getLastD_cons]

theorem isLower_ne_comma (a : Nat) (h : isLower a = true) : a ≠ 44 := by
  unfold isLower at h; simp at h; omega

theorem isUpper_ne_comma (a : Nat) (h : isUpper a = true) : a ≠ 44 := by
  unfold isUpper at h; simp at h; omega

theorem isUpper_not_isLower (a : Nat) (h : isUpper a = true) : isLower a = false := by
  unfold isUpper at h; unfold isLower; simp at h ⊢; omega

/-- The last comma-separated segment of the rewritten text, read off the text
itself: it is a suffix of the text that starts at a segment start, and holds
neither a comma nor a case boundary. -/
theorem lastSegment_spec (s : GoString) :
    ∀ (cur before : GoString), NoComma cur → hasCaseBoundary cur = false →
      (∀ a b, cur.getLast? = some a → s.head? = some b →
        ¬ (isLower a = true ∧ isUpper b = true)) →
      StartsSegment before (cur ++ s) →
      ∃ pre, before ++ (cur ++ s) = pre ++ (splitCommaAux (insertCommas s) cur).getLastD [] ∧
        StartsSegment pre ((splitCommaAux (insertCommas s) cur).getLastD []) ∧
        NoComma ((splitCommaAux (insertCommas s) cur).getLastD []) ∧
        hasCaseBoundary ((splitCommaAux (insertCommas s) cur).getLastD []) = false := by
  induction s using insertCommas.induct with
  | case1 a b rest hab ih =>
      intro cur before hc hb hj hs
      have ha : a ≠ 44 := isLower_ne_comma a hab.1
      have hb44 : b ≠ 44 := isUpper_ne_comma b hab.2
      have e1 : insertCommas (a :: b :: rest) = a :: 44 :: b :: insertCommas rest := by
        rw [insertCommas]; simp [hab]
      have e2 : splitCommaAux (a :: 44 :: b :: insertCommas rest) cur
          = (cur ++ [a]) :: splitCommaAux (insertCommas rest) [b] := by
        simp [splitCommaAux, ha, hb44]
      rw [e1, e2, getLastD_cons_splitCommaAux]
      obtain ⟨pre, h1, h2, h3, h4⟩ := ih [b] (before ++ (cur ++ [a]))
        (by simp [NoComma, hb44.symm]) rfl
        (by
          intro x y hx _ hxy
          simp only [List.getLast?_singleton, Option.some.injEq] at hx
          rw [← hx, isUpper_not_isLower b hab.2] at hxy
          exact Bool.false_ne_true hxy.1)
        (Or.inr (Or.inr ⟨a, b, by simp, by simp, hab.1, hab.2⟩))
      exact ⟨pre, by rw [← h1]; simp, h2, h3, h4⟩
  | case2 a b rest hab ih =>
      intro cur before hc hb hj hs
      have e1 : insertCommas (a :: b :: rest) = a :: insertCommas (b :: rest) := by
        rw [insertCommas]; simp [hab]
      rw [e1]
      by_cases ha : a = 44
      · have e2 : splitCommaAux (a :: insertCommas (b :: rest)) cur
            = cur :: splitCommaAux (insertCommas (b :: rest)) [] := by
          rw [splitCommaAux]; simp [ha]
        rw [e2, getLastD_cons_splitCommaAux]
        obtain ⟨pre, h1, h2, h3, h4⟩ := ih [] (before ++ (cur ++ [a]))
          (by simp [NoComma]) rfl (by intro x y hx; simp at hx)
          (Or.inr (Or.inl (by simp [ha])))
        exact ⟨pre, by rw [← h1]; simp, h2, h3, h4⟩
      · have e2 : splitCommaAux (a :: insertCommas (b :: rest)) cur
            = splitCommaAux (insertCommas (b :: rest)) (cur ++ [a]) := by
          rw [splitCommaAux]; simp [ha]
        rw [e2]
        obtain ⟨pre, h1, h2, h3, h4⟩ := ih (cur ++ [a]) before
          (by
            intro h
            simp only [List.mem_append, List.mem_singleton] at h
            rcases h with h | h
            · exact hc h
            · exact ha h.symm)
          (hasCaseBoundary_concat cur a hb (fun x hx => hj x a hx rfl))
          (by
            intro x y hx hy
            have hx2 : x = a := by simpa using hx.symm
            have hy2 : y = b := by simpa using hy.symm
            rw [hx2, hy2]
            exact hab)
          (by simpa using hs)
        exact ⟨pre, by rw [← h1]; simp, h2, h3, h4⟩
  | case3 l hl =>
      intro cur before hc hb hj hs
      have e1 : insertCommas l = l := by
        rw [insertCommas]
        intro a b rest h
        exact absurd h (hl a b rest)
      rw [e1]
      cases l with
      | nil =>
          simp only [splitCommaAux, List.getLastD_cons, List.getLastD_nil, List.append_nil]
          exact ⟨before, rfl, by simpa using hs, hc, hb⟩
      | cons a tl =>
          cases tl with
          | cons b rest => exact absurd rfl (hl a b rest)
          | nil =>
              by_cases ha : a = 44
              · have e2 : (splitCommaAux [a] cur).getLastD [] = [] := by
                  simp [splitCommaAux, ha]
                rw [e2]
                exact ⟨before ++ (cur ++ [a]), by simp, Or.inr (Or.inl (by simp [ha])),
                  by simp [NoComma], rfl⟩
              · have e2 : (splitCommaAux [a] cur).getLastD [] = cur ++ [a] := by
                  simp [splitCommaAux, ha]
                rw [e2]
                refine ⟨before, rfl, hs, ?_, hasCaseBoundary_concat cur a hb
                  (fun x hx => hj x a hx rfl)⟩
                intro h
                simp only [List.mem_append, List.mem_singleton] at h
                rcases h with h | h
                · exact hc h
                · exact ha h.symm

theorem replaceNBSP_of_not_hasNBSP (s : GoString) (h : hasNBSP s = false) :
    replaceNBSP s = s := by
  induction s with
  | nil => rfl
  | cons a tl ih =>
      cases tl with
      | nil => rfl
      | cons b rest =>
          rw [hasNBSP, Bool.or_eq_false_iff] at h
          have h1 : ¬ (a = 0xC2 ∧ b = 0xA0) := by
            intro h0
            have := h.1
            simp [h0.1, h0.2] at this
          rw [replaceNBSP]
          simp only [h1, if_false]
          rw [ih h.2]

/-- Claim C4 as stated fails: the text `Home,Garden` has no
lowercase-to-uppercase boundary (and no no-break space), yet `extractCategory`
does not return it unchanged: it returns `Garden`, the part after the comma. -/
theorem extractCategory_splits_at_comma :
    hasCaseBoundary (bytes "Home,Garden") = false ∧
    hasNBSP (bytes "Home,Garden") = false ∧
    extractCategory (bytes "Home,Garden") = bytes "Garden" ∧
    extractCategory (bytes "Home,Garden") ≠ bytes "Home,Garden" := by
  decide

/-- Claim C4, amended: for every text, `extractCategory` returns the part of
the text (its no-break spaces replaced by spaces) that follows the last
lowercase-to-uppercase letter boundary or the last comma, whichever comes
later: the result is a suffix that starts the text, or follows a comma, or
starts with the uppercase letter of a boundary, and it holds no comma and no
boundary.  It returns the whole text unchanged when the text has no boundary,
no comma and no no-break space.  In particular
`extractCategory("HomeKitchenAppliances") = "Appliances"` and
`extractCategory("Electronics") = "Electronics"`. -/
theorem extractCategory_spec (text : GoString) :
    (∃ pre, replaceNBSP text = pre ++ extractCategory text ∧
      StartsSegment pre (extractCategory text)) ∧
    NoComma (extractCategory text) ∧
    hasCaseBoundary (extractCategory text) = false ∧
    (hasCaseBoundary text = false → NoComma text → hasNBSP text = false →
      extractCategory text = text) ∧
    extractCategory (bytes "HomeKitchenAppliances") = bytes "Appliances" ∧
    extractCategory (bytes "Electronics") = bytes "Electronics" := by
  obtain ⟨pre, h1, h2, h3, h4⟩ := lastSegment_spec (replaceNBSP text) [] []
    (by simp [NoComma]) rfl (by intro a b h; simp at h) (Or.inl rfl)
  have hr : (splitCommaAux (insertCommas (replaceNBSP text)) []).getLastD []
      = extractCategory text := rfl
  rw [hr] at h1 h2 h3 h4
  simp only [List.nil_append] at h1
  refine ⟨⟨pre, h1, h2⟩, h3, h4, ?_, by decide, by decide⟩
  intro hb hc hn
  rw [replaceNBSP_of_not_hasNBSP text hn] at h1
  rcases h2 with h2 | h2 | ⟨a, b, ha, hb2, hl, hu⟩
  · rw [h2] at h1
    simpa using h1.symm
  · exfalso
    apply hc
    rw [h1]
    exact List.mem_append_left _ (List.mem_of_mem_getLast? h2)
  · exfalso
    have hfalse : hasCaseBoundary text = true := by
      rw [hasCaseBoundary_iff]
      obtain ⟨pre2, hp⟩ : ∃ pre2, pre = pre2 ++ [a] := by
        have hne : pre ≠ [] := by
          intro h0; rw [h0] at ha; simp at ha
        refine ⟨pre.dropLast, ?_⟩
        have h5 := List.dropLast_append_getLast hne
        have h6 : pre.getLast hne = a := by
          rw [List.getLast?_eq_getLast _ hne] at ha
          exact Option.some.inj ha
        rw [h6] at h5
        exact h5.symm
      obtain ⟨post, hq⟩ : ∃ post, extractCategory text = b :: post := by
        cases hx : extractCategory text with
        | nil => rw [hx] at hb2; simp at hb2
        | cons x xs =>
            rw [hx] at hb2
            simp only [List.head?_cons, Option.some.injEq] at hb2
            exact ⟨xs, by rw [hb2]⟩
      exact ⟨pre2, a, b, post, by rw [h1, hp, hq]; simp, hl, hu⟩
    rw [hb] at hfalse
    exact Bool.false_ne_true hfalse

/-- Witness of `extractCategory_spec` on a text without boundary, comma and
no-break space. -/
theorem extractCategory_spec_witness :
    hasCaseBoundary (bytes "Electronics") = false ∧ NoComma (bytes "Electronics") ∧
    hasNBSP (bytes "Electronics") = false ∧
    extractCategory (bytes "Electronics") = bytes "Electronics" :=
  ⟨by decide, by decide, by decide,
    (extractCategory_spec (bytes "Electronics")).2.2.2.1 (by decide) (by decide) (by decide)⟩

/-! ## The leftmost match of a pattern -/

theorem takeWhile_dropWhile_append (p : Nat → Bool) (ws rest : GoString)
    (hws : ∀ c ∈ ws, p c = true) (hrest : ∀ b, rest.head? = some b → p b = false) :
    (ws ++ rest).takeWhile p = ws ∧ (ws ++ rest).dropWhile p = rest := by
  induction ws with
  | nil =>
      cases rest with
      | nil => simp
      | cons b tl =>
          have := hrest b rfl
          simp [List.takeWhile, List.dropWhile, this]
  | cons c tl ih =>
      have hc := hws c (List.mem_cons_self _ _)
      have := ih (fun x hx => hws x (List.mem_cons_of_mem _ hx))
      simp [List.takeWhile, List.dropWhile, hc, this.1, this.2]

theorem dropWhile_head (p : Nat → Bool) (l : GoString) :
    ∀ b, (l.dropWhile p).head? = some b → p b = false := by
  intro b h
  have := List.head?_dropWhile_not p l
  rw [h] at this
  simpa using this

theorem takeWhile_all (p : Nat → Bool) (l : GoString) : ∀ c ∈ l.takeWhile p, p c = true :=
  fun _ h => List.mem_takeWhile_imp h

theorem dropLiteral_iff (lit : GoString) :
    ∀ (s r : GoString), dropLiteral lit s = some r ↔ s = lit ++ r := by
  induction lit with
  | nil => intro s r; simp [dropLiteral, eq_comm]
  | cons a tl ih =>
      intro s r
      cases s with
      | nil => simp [dropLiteral]
      | cons b rest =>
          rw [dropLiteral]
          by_cases hab : a = b
          · simp [hab, ih]
          · rw [if_neg hab]
            constructor
            · intro h; exact Option.noConfusion h
            · intro h
              rw [List.cons_append] at h
              exact absurd (List.cons.inj h).1.symm hab

theorem matchAt_cons (m : GoString → Option GoString) (before : Option Nat) (c : Nat)
    (rest pre post cap : GoString) :
    MatchAt m before (c :: rest) pre post cap ↔
      (pre = [] ∧ post = c :: rest ∧ wordBoundary before (some c) = true ∧
        m (c :: rest) = some cap) ∨
      (∃ pre2, pre = c :: pre2 ∧ MatchAt m (some c) rest pre2 post cap) := by
  unfold MatchAt
  constructor
  · rintro ⟨h1, h2, h3, h4⟩
    cases pre with
    | nil =>
        simp only [List.nil_append] at h1
        subst h1
        exact Or.inl ⟨rfl, rfl, by simpa using h3, h4⟩
    | cons x pre2 =>
        simp only [List.cons_append, List.cons.injEq] at h1
        obtain ⟨hx, h1⟩ := h1
        subst hx
        refine Or.inr ⟨pre2, rfl, h1, h2, ?_, h4⟩
        cases pre2 with
        | nil => simpa using h3
        | cons y ys => simpa [List.getLast?_cons_cons] using h3
  · rintro (⟨h1, h2, h3, h4⟩ | ⟨pre2, h1, h2, h3, h4, h5⟩)
    · subst h1 h2
      exact ⟨rfl, by simp, by simpa using h3, h4⟩
    · subst h1
      refine ⟨by rw [h2]; rfl, h3, ?_, h5⟩
      cases pre2 with
      | nil => simpa using h4
      | cons y ys => simpa [List.getLast?_cons_cons] using h4

theorem findLeftmost_none (m : GoString → Option GoString) (s : GoString) :
    ∀ before, findLeftmost m before s = none ↔
      ∀ pre post cap, ¬ MatchAt m before s pre post cap := by
  induction s with
  | nil =>
      intro before
      simp only [findLeftmost, true_iff]
      rintro pre post cap ⟨h1, h2, _⟩
      have := congrArg List.length h1
      simp only [List.length_nil, List.length_append] at this
      exact h2 (List.length_eq_zero.mp (by omega))
  | cons c rest ih =>
      intro before
      rw [findLeftmost]
      cases hm : (if wordBoundary before (some c) = true then m (c :: rest) else none) with
      | some cap0 =>
          constructor
          · intro h; exact Option.noConfusion h
          · intro h
            exfalso
            refine h [] (c :: rest) cap0 ?_
            rw [matchAt_cons]
            left
            by_cases hb : wordBoundary before (some c) = true
            · rw [if_pos hb] at hm
              exact ⟨rfl, rfl, hb, hm⟩
            · rw [if_neg hb] at hm
              exact Option.noConfusion hm
      | none =>
          simp only
          rw [ih]
          constructor
          · intro h pre post cap hma
            rw [matchAt_cons] at hma
            rcases hma with ⟨_, _, hb, h4⟩ | ⟨pre2, _, h2⟩
            · rw [if_pos hb, h4] at hm
              exact Option.noConfusion hm
            · exact h pre2 post cap h2
          · intro h pre post cap hma
            exact h (c :: pre) post cap ((matchAt_cons m before c rest _ post cap).mpr
              (Or.inr ⟨pre, rfl, hma⟩))

theorem findLeftmost_some (m : GoString → Option GoString) (s : GoString) :
    ∀ before cap, findLeftmost m before s = some cap ↔
      ∃ pre post, MatchAt m before s pre post cap ∧
        ∀ pre2 post2 cap2, MatchAt m before s pre2 post2 cap2 → pre.length ≤ pre2.length := by
  induction s with
  | nil =>
      intro before cap
      rw [findLeftmost]
      constructor
      · intro h; exact Option.noConfusion h
      · rintro ⟨pre, post, ⟨h1, h2, _⟩, _⟩
        have := congrArg List.length h1
        simp only [List.length_nil, List.length_append] at this
        exact absurd (List.length_eq_zero.mp (by omega)) h2
  | cons c rest ih =>
      intro before cap
      rw [findLeftmost]
      cases hm : (if wordBoundary before (some c) = true then m (c :: rest) else none) with
      | some cap0 =>
          have hb : wordBoundary before (some c) = true := by
            by_contra hb
            rw [if_neg hb] at hm
            exact Option.noConfusion hm
          rw [if_pos hb] at hm
          simp only [Option.some.injEq]
          constructor
          · intro h
            subst h
            exact ⟨[], c :: rest, (matchAt_cons m before c rest _ _ _).mpr
              (Or.inl ⟨rfl, rfl, hb, hm⟩), fun _ _ _ _ => Nat.zero_le _⟩
          · rintro ⟨pre, post, hma, hmin⟩
            have h0 := hmin [] (c :: rest) cap0 ((matchAt_cons m before c rest _ _ _).mpr
              (Or.inl ⟨rfl, rfl, hb, hm⟩))
            have hpre : pre = [] := List.length_eq_zero.mp (by simpa using h0)
            subst hpre
            rw [matchAt_cons] at hma
            rcases hma with ⟨_, _, _, h4⟩ | ⟨pre2, h1, _⟩
            · rw [hm] at h4
              exact Option.some.inj h4
            · exact absurd h1 (by simp)
      | none =>
          have hno : ∀ cap1, ¬ (wordBoundary before (some c) = true ∧ m (c :: rest) = some cap1) := by
            rintro cap1 ⟨hb, h4⟩
            rw [if_pos hb, h4] at hm
            exact Option.noConfusion hm
          simp only
          rw [ih]
          constructor
          · rintro ⟨pre, post, hma, hmin⟩
            refine ⟨c :: pre, post, (matchAt_cons m before c rest _ _ _).mpr
              (Or.inr ⟨pre, rfl, hma⟩), ?_⟩
            intro pre2 post2 cap2 h2
            rw [matchAt_cons] at h2
            rcases h2 with ⟨_, _, hb, h4⟩ | ⟨pre3, h1, h3⟩
            · exact absurd ⟨hb, h4⟩ (hno cap2)
            · subst h1
              simpa using hmin pre3 post2 cap2 h3
          · rintro ⟨pre, post, hma, hmin⟩
            rw [matchAt_cons] at hma
            rcases hma with ⟨_, _, hb, h4⟩ | ⟨pre2, h1, h3⟩
            · exact absurd ⟨hb, h4⟩ (hno cap)
            · subst h1
              refine ⟨pre2, post, h3, ?_⟩
              intro pre3 post3 cap3 h5
              have := hmin (c :: pre3) post3 cap3 ((matchAt_cons m before c rest _ _ _).mpr
                (Or.inr ⟨pre3, rfl, h5⟩))
              simpa using this

/-! ## The price and model-number patterns -/

theorem isSpace_of_isDigitOrComma (c : Nat) (h : isDigitOrComma c = true) : isSpace c = false := by
  unfold isDigitOrComma isDigit at h
  unfold isSpace
  simp at h ⊢
  omega

theorem isSpace_of_isWord (c : Nat) (h : isWord c = true) : isSpace c = false := by
  unfold isWord isDigit isUpper isLower at h
  unfold isSpace
  simp at h ⊢
  omega

theorem head_append_of_ne_nil (a rest : GoString) (h : a ≠ []) :
    ∃ c, c ∈ a ∧ (a ++ rest).head? = some c := by
  cases a with
  | nil => exact absurd rfl h
  | cons c tl => exact ⟨c, List.mem_cons_self _ _, rfl⟩

theorem matchPriceHere_iff (post cap : GoString) :
    matchPriceHere post = some cap ↔
      ∃ (ws amount : GoString) (d1 d2 : Nat) (rest : GoString),
        post = [65, 69, 68] ++ (ws ++ (amount ++ (46 :: d1 :: d2 :: rest))) ∧
        ws ≠ [] ∧ (∀ c ∈ ws, isSpace c = true) ∧
        amount ≠ [] ∧ (∀ c ∈ amount, isDigitOrComma c = true) ∧
        isDigit d1 = true ∧ isDigit d2 = true ∧
        wordBoundary (some d2) rest.head? = true ∧
        cap = amount ++ [46, d1, d2] := by
  constructor
  · intro h
    unfold matchPriceHere at h
    cases hd : dropLiteral [65, 69, 68] post with
    | none => rw [hd] at h; exact Option.noConfusion h
    | some r1 =>
        rw [hd] at h
        simp only at h
        have hpost := (dropLiteral_iff _ _ _).mp hd
        by_cases hws : r1.takeWhile isSpace = []
        · rw [if_pos hws] at h; exact Option.noConfusion h
        · rw [if_neg hws] at h
          by_cases ham : (r1.dropWhile isSpace).takeWhile isDigitOrComma = []
          · rw [if_pos ham] at h; exact Option.noConfusion h
          · rw [if_neg ham] at h
            cases hr : (r1.dropWhile isSpace).dropWhile isDigitOrComma with
            | nil => rw [hr] at h; exact Option.noConfusion h
            | cons p t1 =>
                cases t1 with
                | nil => rw [hr] at h; exact Option.noConfusion h
                | cons d1 t2 =>
                    cases t2 with
                    | nil => rw [hr] at h; exact Option.noConfusion h
                    | cons d2 r3 =>
                        rw [hr] at h
                        simp only at h
                        split at h
                        · rename_i hc
                          refine ⟨r1.takeWhile isSpace,
                            (r1.dropWhile isSpace).takeWhile isDigitOrComma, d1, d2, r3, ?_,
                            hws, takeWhile_all _ _, ham, takeWhile_all _ _, hc.2.1, hc.2.2.1,
                            hc.2.2.2, (Option.some.inj h).symm⟩
                          rw [hpost]
                          congr 1
                          have e1 := List.takeWhile_append_dropWhile isSpace r1
                          have e2 := List.takeWhile_append_dropWhile isDigitOrComma
                            (r1.dropWhile isSpace)
                          rw [hr, hc.1] at e2
                          rw [e2, e1]
                        · exact Option.noConfusion h
  · rintro ⟨ws, amount, d1, d2, rest, hpost, hws, hwsa, ham, hama, hd1, hd2, hb, hcap⟩
    unfold matchPriceHere
    have hd : dropLiteral [65, 69, 68] post
        = some (ws ++ (amount ++ (46 :: d1 :: d2 :: rest))) :=
      (dropLiteral_iff _ _ _).mpr hpost
    rw [hd]
    simp only
    obtain ⟨c, hc, hhead⟩ := head_append_of_ne_nil amount (46 :: d1 :: d2 :: rest) ham
    have e1 := takeWhile_dropWhile_append isSpace ws (amount ++ (46 :: d1 :: d2 :: rest)) hwsa
      (by
        intro b hb2
        rw [hhead] at hb2
        rw [← Option.some.inj hb2]
        exact isSpace_of_isDigitOrComma c (hama c hc))
    have e2 := takeWhile_dropWhile_append isDigitOrComma amount (46 :: d1 :: d2 :: rest) hama
      (by
        intro b hb2
        simp only [List.head?_cons, Option.some.injEq] at hb2
        rw [← hb2]; decide)
    rw [e1.1, e1.2, e2.1, e2.2, if_neg hws, if_neg ham]
    simp only
    rw [if_pos ⟨trivial, hd1, hd2, hb⟩, hcap]

theorem wordBoundary_after_token (token rest : GoString) (ht : token ≠ [])
    (hta : ∀ c ∈ token, isWord c = true) (hr : ∀ b, rest.head? = some b → isWord b = false) :
    wordBoundary token.getLast? rest.head? = true := by
  have h1 : isWordAt token.getLast? = true := by
    rw [List.getLast?_eq_getLast _ ht]
    exact hta _ (List.getLast_mem ht)
  have h2 : isWordAt rest.head? = false := by
    cases hh : rest.head? with
    | none => rfl
    | some b => exact hr b hh
  unfold wordBoundary
  rw [h1, h2]; rfl

theorem matchModelHere_iff (post cap : GoString) :
    matchModelHere post = some cap ↔
      ∃ (ws1 ws2 ws3 rest : GoString),
        post = [77, 111, 100, 101, 108] ++ (ws1 ++ ([78, 117, 109, 98, 101, 114] ++
          (ws2 ++ (58 :: (ws3 ++ (cap ++ rest)))))) ∧
        ws1 ≠ [] ∧ (∀ c ∈ ws1, isSpace c = true) ∧
        (∀ c ∈ ws2, isSpace c = true) ∧ (∀ c ∈ ws3, isSpace c = true) ∧
        cap ≠ [] ∧ (∀ c ∈ cap, isWord c = true) ∧
        (∀ b, rest.head? = some b → isWord b = false) := by
  constructor
  · intro h
    unfold matchModelHere at h
    cases hd : dropLiteral [77, 111, 100, 101, 108] post with
    | none => rw [hd] at h; exact Option.noConfusion h
    | some r1 =>
        rw [hd] at h
        simp only at h
        have hpost := (dropLiteral_iff _ _ _).mp hd
        by_cases hws : r1.takeWhile isSpace = []
        · rw [if_pos hws] at h; exact Option.noConfusion h
        · rw [if_neg hws] at h
          cases hd2 : dropLiteral [78, 117, 109, 98, 101, 114] (r1.dropWhile isSpace) with
          | none => rw [hd2] at h; exact Option.noConfusion h
          | some r2 =>
              rw [hd2] at h
              simp only at h
              have hr1 := (dropLiteral_iff _ _ _).mp hd2
              cases hr : r2.dropWhile isSpace with
              | nil => rw [hr] at h; exact Option.noConfusion h
              | cons c r3 =>
                  rw [hr] at h
                  simp only at h
                  by_cases hc : c = 58
                  · rw [if_pos hc] at h
                    split at h
                    · rename_i ht
                      have hcap := Option.some.inj h
                      refine ⟨r1.takeWhile isSpace, r2.takeWhile isSpace,
                        r3.takeWhile isSpace, (r3.dropWhile isSpace).dropWhile isWord, ?_,
                        hws, takeWhile_all _ _, takeWhile_all _ _, takeWhile_all _ _,
                        by rw [← hcap]; exact ht.1,
                        by rw [← hcap]; exact takeWhile_all _ _, dropWhile_head _ _⟩
                      rw [hpost, ← hcap]
                      congr 1
                      have e1 := List.takeWhile_append_dropWhile isSpace r1
                      have e2 := List.takeWhile_append_dropWhile isSpace r2
                      have e3 := List.takeWhile_append_dropWhile isSpace r3
                      have e4 := List.takeWhile_append_dropWhile isWord (r3.dropWhile isSpace)
                      rw [e4, e3, ← hc, ← hr, e2, ← hr1, e1]
                    · exact Option.noConfusion h
                  · rw [if_neg hc] at h; exact Option.noConfusion h
  · rintro ⟨ws1, ws2, ws3, rest, hpost, hws1, hws1a, hws2a, hws3a, hcap, hcapa, hrest⟩
    unfold matchModelHere
    have hd : dropLiteral [77, 111, 100, 101, 108] post
        = some (ws1 ++ ([78, 117, 109, 98, 101, 114] ++
          (ws2 ++ (58 :: (ws3 ++ (cap ++ rest)))))) :=
      (dropLiteral_iff _ _ _).mpr hpost
    rw [hd]
    simp only
    have e1 := takeWhile_dropWhile_append isSpace ws1
      ([78, 117, 109, 98, 101, 114] ++ (ws2 ++ (58 :: (ws3 ++ (cap ++ rest))))) hws1a
      (by
        intro b hb
        simp only [List.cons_append, List.head?_cons, Option.some.injEq] at hb
        rw [← hb]; decide)
    have e2 := takeWhile_dropWhile_append isSpace ws2 (58 :: (ws3 ++ (cap ++ rest))) hws2a
      (by
        intro b hb
        simp only [List.head?_cons, Option.some.injEq] at hb
        rw [← hb]; decide)
    obtain ⟨c, hc, hhead⟩ := head_append_of_ne_nil cap rest hcap
    have e3 := takeWhile_dropWhile_append isSpace ws3 (cap ++ rest) hws3a
      (by
        intro b hb
        rw [hhead] at hb
        rw [← Option.some.inj hb]
        exact isSpace_of_isWord c (hcapa c hc))
    have e4 := takeWhile_dropWhile_append isWord cap rest hcapa hrest
    have hd2 : dropLiteral [78, 117, 109, 98, 101, 114]
        ([78, 117, 109, 98, 101, 114] ++ (ws2 ++ (58 :: (ws3 ++ (cap ++ rest)))))
        = some (ws2 ++ (58 :: (ws3 ++ (cap ++ rest)))) :=
      (dropLiteral_iff _ _ _).mpr rfl
    rw [e1.1, e1.2, if_neg hws1, hd2]
    simp only
    rw [e2.2]
    simp only
    rw [if_pos trivial, e3.2, e4.1, e4.2,
      if_pos ⟨hcap, wordBoundary_after_token cap rest hcap hcapa hrest⟩]

/-! ## strconv.ParseFloat on the text of a price -/

theorem isDigit_bounds (c : Nat) (h : isDigit c = true) : 48 ≤ c ∧ c ≤ 57 := by
  unfold isDigit at h
  simpa using h

theorem readMantissa_cons (base c : Nat) (rest : GoString) (st : Mantissa) :
    readMantissa base (c :: rest) st =
      if c = 95 then readMantissa base rest ⟨st.value, st.frac, st.sawDot, st.sawDigits, true⟩
      else if c = 46 then
        if st.sawDot then (st, c :: rest)
        else readMantissa base rest ⟨st.value, st.frac, true, st.sawDigits, st.underscores⟩
      else if isDigit c then
        readMantissa base rest
          ⟨st.value * base + (c - 48), if st.sawDot then st.frac + 1 else st.frac,
            st.sawDot, true, st.underscores⟩
      else
        match (if base = 16 then hexLetter c else none) with
        | some d =>
            readMantissa base rest
              ⟨st.value * base + d, if st.sawDot then st.frac + 1 else st.frac,
                st.sawDot, true, st.underscores⟩
        | none => (st, c :: rest) := rfl

theorem readMantissa_digit (c : Nat) (rest : GoString) (st : Mantissa)
    (hc : isDigit c = true) :
    readMantissa 10 (c :: rest) st
      = readMantissa 10 rest
          ⟨st.value * 10 + (c - 48), if st.sawDot then st.frac + 1 else st.frac,
            st.sawDot, true, st.underscores⟩ := by
  have hb := isDigit_bounds c hc
  have h95 : c ≠ 95 := by omega
  have h46 : c ≠ 46 := by omega
  rw [readMantissa_cons, if_neg h95, if_neg h46, if_pos hc]

theorem readMantissa_digits (ds : GoString) :
    ∀ (rest : GoString) (st : Mantissa), (∀ c ∈ ds, isDigit c = true) →
      readMantissa 10 (ds ++ rest) st
        = readMantissa 10 rest
            ⟨digitsValue st.value ds, if st.sawDot then st.frac + ds.length else st.frac,
              st.sawDot, st.sawDigits || !ds.isEmpty, st.underscores⟩ := by
  induction ds with
  | nil =>
      intro rest st _
      obtain ⟨v, f, sd, sg, u⟩ := st
      have e : (⟨digitsValue v [], if sd = true then f + ([] : GoString).length else f, sd,
          sg || !([] : GoString).isEmpty, u⟩ : Mantissa) = ⟨v, f, sd, sg, u⟩ := by
        cases sd <;> cases sg <;> rfl
      show readMantissa 10 rest _ = readMantissa 10 rest _
      rw [e]
  | cons c tl ih =>
      intro rest st h
      have hc := h c (List.mem_cons_self _ _)
      rw [List.cons_append, readMantissa_digit c _ st hc,
        ih rest _ (fun x hx => h x (List.mem_cons_of_mem _ hx))]
      obtain ⟨v, f, sd, sg, u⟩ := st
      congr 1
      cases sd
      · show Mantissa.mk (digitsValue (v * 10 + (c - 48)) tl) f false (true || !tl.isEmpty) u
          = Mantissa.mk (digitsValue v (c :: tl)) f false (sg || !(c :: tl).isEmpty) u
        cases sg <;> rfl
      · show Mantissa.mk (digitsValue (v * 10 + (c - 48)) tl) (f + 1 + tl.length) true
            (true || !tl.isEmpty) u
          = Mantissa.mk (digitsValue v (c :: tl)) (f + (tl.length + 1)) true
            (sg || !(c :: tl).isEmpty) u
        rw [Nat.add_right_comm f 1 tl.length]
        cases sg <;> rfl

theorem digitsValue_append_two (d1 d2 : Nat) (l : GoString) :
    ∀ acc, digitsValue acc (l ++ [d1, d2])
      = (digitsValue acc l * 10 + (d1 - 48)) * 10 + (d2 - 48) := by
  induction l with
  | nil => intro acc; rfl
  | cons x xs ih => intro acc; exact ih _

theorem readMantissa_price (ds : GoString) (d1 d2 : Nat) (h : ∀ c ∈ ds, isDigit c = true)
    (h1 : isDigit d1 = true) (h2 : isDigit d2 = true) :
    readMantissa 10 (ds ++ [46, d1, d2]) ⟨0, 0, false, false, false⟩
      = (⟨digitsValue 0 (ds ++ [d1, d2]), 2, true, true, false⟩, []) := by
  rw [readMantissa_digits ds _ _ h, readMantissa_cons, if_neg (by decide), if_pos rfl]
  simp only [Bool.false_eq_true, if_false]
  rw [readMantissa_digit d1 _ _ h1, readMantissa_digit d2 _ _ h2, digitsValue_append_two]
  rfl

theorem special_of_head (c : Nat) (tl : GoString) (h : c < 65) (h43 : c ≠ 43) (h45 : c ≠ 45) :
    special (c :: tl) = none := by
  have hl : lowerByte c = c := by
    unfold lowerByte
    rw [if_neg (by omega)]
  unfold special
  simp only [List.map_cons, hl, List.cons.injEq]
  have e1 : ¬ c = 105 := by omega
  have e2 : ¬ c = 110 := by omega
  simp [e1, e2, h43, h45]

theorem readFloat_price (ds : GoString) (d1 d2 : Nat) (h : ∀ c ∈ ds, isDigit c = true)
    (h1 : isDigit d1 = true) (h2 : isDigit d2 = true) :
    special (ds ++ [46, d1, d2]) = none ∧
    readFloat (ds ++ [46, d1, d2]) = some (false, digitsValue 0 (ds ++ [d1, d2]), 100) := by
  have hm := readMantissa_price ds d1 d2 h h1 h2
  have hb1 := isDigit_bounds d1 h1
  have hl : ∀ x, x < 65 → lowerByte x = x := by
    intro x hx
    unfold lowerByte
    rw [if_neg (by omega)]
  cases ds with
  | nil =>
      refine ⟨special_of_head 46 _ (by norm_num) (by norm_num) (by norm_num), ?_⟩
      simp only [List.nil_append] at hm ⊢
      unfold readFloat
      simp only [hl d1 (by omega)]
      have e : ¬ d1 = 120 := by omega
      simp [e, hm]
  | cons x xs =>
      have hx := isDigit_bounds x (h x (List.mem_cons_self _ _))
      refine ⟨special_of_head x _ (by omega) (by omega) (by omega), ?_⟩
      have e43 : ¬ x = 43 := by omega
      have e45 : ¬ x = 45 := by omega
      cases xs with
      | nil =>
          simp only [List.cons_append, List.nil_append] at hm ⊢
          unfold readFloat
          simp [e43, e45, hl 46 (by norm_num), hm]
      | cons y ys =>
          have hy := isDigit_bounds y (h y (by simp))
          have ey : ¬ lowerByte y = 120 := by rw [hl y (by omega)]; omega
          cases hys : ys ++ [46, d1, d2] with
          | nil => simp at hys
          | cons z zs =>
              simp only [List.cons_append] at hm ⊢
              rw [hys] at hm ⊢
              unfold readFloat
              simp [e43, e45, ey, hm]

/-- What `ParseFloat` returns on the text of a matched price with its commas
removed: the correctly rounded value of the amount, read as a whole number of
hundredths, or a range error when that value is too large for a `float64`. -/
theorem ParseFloat_amount (amount : GoString) (d1 d2 : Nat)
    (ha : ∀ c ∈ amount, isDigitOrComma c = true)
    (h1 : isDigit d1 = true) (h2 : isDigit d2 = true) :
    ParseFloat (removeCommas (amount ++ [46, d1, d2]))
      = (if (roundToFloat64 false (digitsValue 0 (removeCommas amount ++ [d1, d2])) 100).2 = true
          then Except.error NumError.outOfRange
          else Except.ok
            (roundToFloat64 false (digitsValue 0 (removeCommas amount ++ [d1, d2])) 100).1) := by
  have hb1 := isDigit_bounds d1 h1
  have hb2 := isDigit_bounds d2 h2
  have e1 : removeCommas (amount ++ [46, d1, d2]) = removeCommas amount ++ [46, d1, d2] := by
    unfold removeCommas
    rw [List.filter_append]
    congr 1
    have a1 : (d1 != 44) = true := by simp; omega
    have a2 : (d2 != 44) = true := by simp; omega
    simp [List.filter, a1, a2]
  have hds : ∀ c ∈ removeCommas amount, isDigit c = true := by
    intro c hc
    unfold removeCommas at hc
    rw [List.mem_filter] at hc
    have := ha c hc.1
    unfold isDigitOrComma at this
    simp only [Bool.or_eq_true, beq_iff_eq] at this
    rcases this with h | h
    · exact h
    · have := hc.2
      simp [h] at this
  obtain ⟨hs, hr⟩ := readFloat_price (removeCommas amount) d1 d2 hds h1 h2
  rw [e1]
  unfold ParseFloat
  rw [hs, hr]

/-! ## extractPrice and extractModelNumber -/

theorem matchAt_price_iff (clean pre cap : GoString) :
    (∃ post, MatchAt matchPriceHere none clean pre post cap) ↔
      ∃ amount d1 d2 rest, PriceOccurrence clean pre amount d1 d2 rest ∧
        cap = amount ++ [46, d1, d2] := by
  constructor
  · rintro ⟨post, h1, _, h3, h4⟩
    obtain ⟨ws, amount, d1, d2, rest, hp, a1, a2, a3, a4, a5, a6, a7, a8⟩ :=
      (matchPriceHere_iff post cap).mp h4
    refine ⟨amount, d1, d2, rest, ⟨ws, by rw [h1, hp], ?_, a1, a2, a3, a4, a5, a6, a7⟩, a8⟩
    rw [hp] at h3
    simpa using h3
  · rintro ⟨amount, d1, d2, rest, ⟨ws, hp, a0, a1, a2, a3, a4, a5, a6, a7⟩, a8⟩
    refine ⟨[65, 69, 68] ++ (ws ++ (amount ++ (46 :: d1 :: d2 :: rest))), hp, by simp,
      by simpa using a0, ?_⟩
    exact (matchPriceHere_iff _ cap).mpr ⟨ws, amount, d1, d2, rest, rfl, a1, a2, a3, a4, a5, a6,
      a7, a8⟩

theorem matchAt_model_iff (clean pre cap : GoString) :
    (∃ post, MatchAt matchModelHere none clean pre post cap) ↔
      ∃ rest, ModelOccurrence clean pre cap rest := by
  constructor
  · rintro ⟨post, h1, _, h3, h4⟩
    obtain ⟨ws1, ws2, ws3, rest, hp, a1, a2, a3, a4, a5, a6, a7⟩ :=
      (matchModelHere_iff post cap).mp h4
    refine ⟨rest, ws1, ws2, ws3, by rw [h1, hp], ?_, a1, a2, a3, a4, a5, a6, a7⟩
    rw [hp] at h3
    simpa using h3
  · rintro ⟨rest, ws1, ws2, ws3, hp, a0, a1, a2, a3, a4, a5, a6, a7⟩
    refine ⟨[77, 111, 100, 101, 108] ++ (ws1 ++ ([78, 117, 109, 98, 101, 114] ++
      (ws2 ++ (58 :: (ws3 ++ (cap ++ rest)))))), hp, by simp, by simpa using a0, ?_⟩
    exact (matchModelHere_iff _ cap).mpr ⟨ws1, ws2, ws3, rest, rfl, a1, a2, a3, a4, a5, a6, a7⟩

theorem findPrice_none_iff (clean : GoString) :
    findPrice clean = none ↔
      ¬ ∃ pre amount d1 d2 post, PriceOccurrence clean pre amount d1 d2 post := by
  unfold findPrice
  rw [findLeftmost_none]
  constructor
  · rintro h ⟨pre, amount, d1, d2, post, ho⟩
    obtain ⟨post2, hm⟩ := (matchAt_price_iff clean pre _).mpr ⟨amount, d1, d2, post, ho, rfl⟩
    exact h pre post2 _ hm
  · intro h pre post cap hm
    obtain ⟨amount, d1, d2, rest, ho, _⟩ := (matchAt_price_iff clean pre cap).mp ⟨post, hm⟩
    exact h ⟨pre, amount, d1, d2, rest, ho⟩

theorem findPrice_some_iff (clean cap : GoString) :
    findPrice clean = some cap ↔
      ∃ pre amount d1 d2 post, PriceOccurrence clean pre amount d1 d2 post ∧
        cap = amount ++ [46, d1, d2] ∧
        ∀ pre2 amount2 e1 e2 post2, PriceOccurrence clean pre2 amount2 e1 e2 post2 →
          pre.length ≤ pre2.length := by
  unfold findPrice
  rw [findLeftmost_some]
  constructor
  · rintro ⟨pre, post, hm, hmin⟩
    obtain ⟨amount, d1, d2, rest, ho, hc⟩ := (matchAt_price_iff clean pre cap).mp ⟨post, hm⟩
    refine ⟨pre, amount, d1, d2, rest, ho, hc, ?_⟩
    intro pre2 amount2 e1 e2 post2 ho2
    obtain ⟨post3, hm2⟩ := (matchAt_price_iff clean pre2 _).mpr ⟨amount2, e1, e2, post2, ho2, rfl⟩
    exact hmin pre2 post3 _ hm2
  · rintro ⟨pre, amount, d1, d2, rest, ho, hc, hmin⟩
    obtain ⟨post, hm⟩ := (matchAt_price_iff clean pre cap).mpr ⟨amount, d1, d2, rest, ho, hc⟩
    refine ⟨pre, post, hm, ?_⟩
    intro pre2 post2 cap2 hm2
    obtain ⟨amount2, e1, e2, rest2, ho2, _⟩ := (matchAt_price_iff clean pre2 cap2).mp ⟨post2, hm2⟩
    exact hmin pre2 amount2 e1 e2 rest2 ho2

theorem findModel_none_iff (clean : GoString) :
    findModel clean = none ↔ ¬ ∃ pre token post, ModelOccurrence clean pre token post := by
  unfold findModel
  rw [findLeftmost_none]
  constructor
  · rintro h ⟨pre, token, post, ho⟩
    obtain ⟨post2, hm⟩ := (matchAt_model_iff clean pre token).mpr ⟨post, ho⟩
    exact h pre post2 _ hm
  · intro h pre post cap hm
    obtain ⟨rest, ho⟩ := (matchAt_model_iff clean pre cap).mp ⟨post, hm⟩
    exact h ⟨pre, cap, rest, ho⟩

theorem findModel_some_iff (clean cap : GoString) :
    findModel clean = some cap ↔
      ∃ pre post, ModelOccurrence clean pre cap post ∧
        ∀ pre2 token2 post2, ModelOccurrence clean pre2 token2 post2 →
          pre.length ≤ pre2.length := by
  unfold findModel
  rw [findLeftmost_some]
  constructor
  · rintro ⟨pre, post, hm, hmin⟩
    obtain ⟨rest, ho⟩ := (matchAt_model_iff clean pre cap).mp ⟨post, hm⟩
    refine ⟨pre, rest, ho, ?_⟩
    intro pre2 token2 post2 ho2
    obtain ⟨post3, hm2⟩ := (matchAt_model_iff clean pre2 token2).mpr ⟨post2, ho2⟩
    exact hmin pre2 post3 _ hm2
  · rintro ⟨pre, rest, ho, hmin⟩
    obtain ⟨post, hm⟩ := (matchAt_model_iff clean pre cap).mpr ⟨rest, ho⟩
    refine ⟨pre, post, hm, ?_⟩
    intro pre2 post2 cap2 hm2
    obtain ⟨rest2, ho2⟩ := (matchAt_model_iff clean pre2 cap2).mp ⟨post2, hm2⟩
    exact hmin pre2 cap2 rest2 ho2

/-- Claim C3 as stated fails.  The text `AED 1000...0.00` (a 1 and 309 zeros)
holds the token AED, a space and an amount with exactly two fraction digits,
yet `extractPrice` does not succeed on it, and the error is not
"price not found": `ParseFloat` reports a value out of range and
`extractPrice` returns "failed to parse price".  Besides, the pattern ends
with `\b`: in `AED 12.50x` the two fraction digits are followed by a letter and
no price is found. -/
theorem extractPrice_other_failures :
    PriceOccurrence (replaceNBSP hugePriceText) [] (49 :: List.replicate 309 48) 48 48 [] ∧
    extractPrice hugePriceText
      = (Float64.zero, some (ExtractError.priceParseFailed NumError.outOfRange)) ∧
    (extractPrice hugePriceText).2 ≠ some ExtractError.priceNotFound ∧
    (extractPrice hugePriceText).2 ≠ none ∧
    extractPrice (bytes "AED 12.50x") = (Float64.zero, some ExtractError.priceNotFound) :=
  ⟨⟨[32], by decide, by decide, by decide, by decide, by decide, by decide, by decide,
    by decide, by decide⟩, by decide, by decide, by decide, by decide⟩

/-- Claim C3, amended: for every text, with its no-break spaces replaced by
spaces, `extractPrice` fails with "price not found" exactly when the text has no
occurrence of the price pattern (the token AED at a word boundary, whitespace,
an amount of digits and thousands separators, a point and exactly two fraction
digits ending at a word boundary); on the leftmost occurrence it returns the
amount with the separators removed, correctly rounded to a `float64`, unless
that value is out of the `float64` range, in which case it fails with
"failed to parse price"; so it succeeds exactly when there is an occurrence and
the leftmost one is in range.  In particular
`extractPrice("AED 1,234.56 incl. VAT")` returns 1234.56 (the nearest
`float64` to 123456/100, rendered `1234.56`) and a text with no currency token
fails with "price not found". -/
theorem extractPrice_spec (text : GoString) :
    ((extractPrice text).2 = some ExtractError.priceNotFound ↔
      ¬ ∃ pre amount d1 d2 post, PriceOccurrence (replaceNBSP text) pre amount d1 d2 post) ∧
    (∀ pre amount d1 d2 post, PriceOccurrence (replaceNBSP text) pre amount d1 d2 post →
      (∀ pre2 amount2 e1 e2 post2, PriceOccurrence (replaceNBSP text) pre2 amount2 e1 e2 post2 →
        pre.length ≤ pre2.length) →
      extractPrice text
        = (if (roundToFloat64 false (digitsValue 0 (removeCommas amount ++ [d1, d2])) 100).2 = true
            then (Float64.zero, some (ExtractError.priceParseFailed NumError.outOfRange))
            else ((roundToFloat64 false (digitsValue 0 (removeCommas amount ++ [d1, d2])) 100).1,
              none))) ∧
    ((extractPrice text).2 = none ↔
      ∃ pre amount d1 d2 post, PriceOccurrence (replaceNBSP text) pre amount d1 d2 post ∧
        (∀ pre2 amount2 e1 e2 post2,
          PriceOccurrence (replaceNBSP text) pre2 amount2 e1 e2 post2 →
            pre.length ≤ pre2.length) ∧
        (roundToFloat64 false (digitsValue 0 (removeCommas amount ++ [d1, d2])) 100).2
          = false) ∧
    extractPrice (bytes "AED 1,234.56 incl. VAT")
      = ((roundToFloat64 false 123456 100).1, none) ∧
    fmtFloat2 (extractPrice (bytes "AED 1,234.56 incl. VAT")).1 = bytes "1234.56" ∧
    extractPrice (bytes "1,234.56 incl. VAT") = (Float64.zero, some ExtractError.priceNotFound) := by
  have key : ∀ pre amount d1 d2 post,
      PriceOccurrence (replaceNBSP text) pre amount d1 d2 post →
      (∀ pre2 amount2 e1 e2 post2,
        PriceOccurrence (replaceNBSP text) pre2 amount2 e1 e2 post2 →
          pre.length ≤ pre2.length) →
      extractPrice text
        = (if (roundToFloat64 false (digitsValue 0 (removeCommas amount ++ [d1, d2])) 100).2 = true
            then (Float64.zero, some (ExtractError.priceParseFailed NumError.outOfRange))
            else ((roundToFloat64 false (digitsValue 0 (removeCommas amount ++ [d1, d2])) 100).1,
              none)) := by
    intro pre amount d1 d2 post ho hmin
    have hf : findPrice (replaceNBSP text) = some (amount ++ [46, d1, d2]) :=
      (findPrice_some_iff _ _).mpr ⟨pre, amount, d1, d2, post, ho, rfl, hmin⟩
    obtain ⟨ws, _, _, _, _, _, ha, h1, h2, _⟩ := ho
    have hp := ParseFloat_amount amount d1 d2 ha h1 h2
    unfold extractPrice
    simp only [hf, hp]
    by_cases hov :
        (roundToFloat64 false (digitsValue 0 (removeCommas amount ++ [d1, d2])) 100).2 = true
    · simp [hov]
    · simp [hov]
  refine ⟨?_, key, ?_, by decide, by decide, by decide⟩
  · rw [← findPrice_none_iff]
    unfold extractPrice
    cases hf : findPrice (replaceNBSP text) with
    | none => simp [hf]
    | some cap =>
        cases hp : ParseFloat (removeCommas cap) <;> simp [hf, hp]
  · constructor
    · intro h
      cases hf : findPrice (replaceNBSP text) with
      | none =>
          unfold extractPrice at h
          simp [hf] at h
      | some cap =>
          obtain ⟨pre, amount, d1, d2, post, ho, hc, hmin⟩ := (findPrice_some_iff _ _).mp hf
          refine ⟨pre, amount, d1, d2, post, ho, hmin, ?_⟩
          have hk := key pre amount d1 d2 post ho hmin
          rw [hk] at h
          by_cases hov :
              (roundToFloat64 false (digitsValue 0 (removeCommas amount ++ [d1, d2])) 100).2
                = true
          · simp [hov] at h
          · simpa using hov
    · rintro ⟨pre, amount, d1, d2, post, ho, hmin, hov⟩
      rw [key pre amount d1 d2 post ho hmin, hov]
      simp

/-- Witness of `extractPrice_spec` on the text `AED 1,234.56 incl. VAT`, whose
only occurrence of the pattern starts the text. -/
theorem extractPrice_spec_witness :
    PriceOccurrence (replaceNBSP (bytes "AED 1,234.56 incl. VAT")) [] (bytes "1,234") 53 54
      (bytes " incl. VAT") ∧
    extractPrice (bytes "AED 1,234.56 incl. VAT")
      = (if (roundToFloat64 false (digitsValue 0 (removeCommas (bytes "1,234") ++ [53, 54]))
            100).2 = true
          then (Float64.zero, some (ExtractError.priceParseFailed NumError.outOfRange))
          else ((roundToFloat64 false (digitsValue 0 (removeCommas (bytes "1,234") ++ [53, 54]))
            100).1, none)) :=
  ⟨⟨[32], by decide, by decide, by decide, by decide, by decide, by decide, by decide,
      by decide, by decide⟩,
    (extractPrice_spec (bytes "AED 1,234.56 incl. VAT")).2.1 [] (bytes "1,234") 53 54
      (bytes " incl. VAT")
      ⟨[32], by decide, by decide, by decide, by decide, by decide, by decide, by decide,
        by decide, by decide⟩
      (fun _ _ _ _ _ _ => Nat.zero_le _)⟩

/-- Claim C5 as stated fails.  On `Model Number: _` the extraction succeeds and
returns `_`, which is no alphanumeric token: the token class `\w` includes the
underscore.  On `xModel Number: A1` the text holds the label, the colon and the
token `A1`, and the extraction fails: the pattern starts with `\b`, so the label
must start at a word boundary. -/
theorem extractModelNumber_underscore_and_boundary :
    extractModelNumber (bytes "Model Number: _") = (bytes "_", none) ∧
    (∀ c ∈ (extractModelNumber (bytes "Model Number: _")).1, isAlnum c = false) ∧
    bytes "xModel Number: A1"
      = bytes "x" ++ (bytes "Model" ++ (bytes " " ++ (bytes "Number" ++
          ([] ++ (58 :: (bytes " " ++ (bytes "A1" ++ []))))))) ∧
    extractModelNumber (bytes "xModel Number: A1")
      = ([], some ExtractError.modelNumberNotFound) := by
  decide

/-- Claim C5, amended: for every text, with its no-break spaces replaced by
spaces, `extractModelNumber` succeeds if and only if the text has an
occurrence of the model pattern: the case-sensitive word `Model` starting at a
word boundary, one or more whitespace, the word `Number`, optional whitespace,
a colon, optional whitespace, and one token of letters, digits and
underscores; on success it returns exactly the token of the leftmost
occurrence (the whole run of word characters), otherwise it fails with
"model number not found".  In particular `Model Number: ABC123` yields
`ABC123` and `SKU: 999` fails. -/
theorem extractModelNumber_spec (text : GoString) :
    ((extractModelNumber text).2 = none ↔
      ∃ pre token post, ModelOccurrence (replaceNBSP text) pre token post) ∧
    ((extractModelNumber text).2 = some ExtractError.modelNumberNotFound ↔
      ¬ ∃ pre token post, ModelOccurrence (replaceNBSP text) pre token post) ∧
    (∀ pre token post, ModelOccurrence (replaceNBSP text) pre token post →
      (∀ pre2 token2 post2, ModelOccurrence (replaceNBSP text) pre2 token2 post2 →
        pre.length ≤ pre2.length) →
      extractModelNumber text = (token, none)) ∧
    extractModelNumber (bytes "Model Number: ABC123") = (bytes "ABC123", none) ∧
    extractModelNumber (bytes "SKU: 999") = ([], some ExtractError.modelNumberNotFound) := by
  have hnone : (extractModelNumber text).2 = some ExtractError.modelNumberNotFound ↔
      ¬ ∃ pre token post, ModelOccurrence (replaceNBSP text) pre token post := by
    rw [← findModel_none_iff]
    unfold extractModelNumber
    cases hf : findModel (replaceNBSP text) <;> simp [hf]
  refine ⟨?_, hnone, ?_, by decide, by decide⟩
  · rw [← not_iff_not, ← hnone]
    unfold extractModelNumber
    cases hf : findModel (replaceNBSP text) <;> simp [hf]
  · intro pre token post ho hmin
    have hf : findModel (replaceNBSP text) = some token :=
      (findModel_some_iff _ _).mpr ⟨pre, post, ho, hmin⟩
    unfold extractModelNumber
    simp [hf]

/-- Witness of `extractModelNumber_spec` on the text `Model Number: ABC123`. -/
theorem extractModelNumber_spec_witness :
    ModelOccurrence (replaceNBSP (bytes "Model Number: ABC123")) [] (bytes "ABC123") [] ∧
    extractModelNumber (bytes "Model Number: ABC123") = (bytes "ABC123", none) :=
  ⟨⟨[32], [], [32], by decide, by decide, by decide, by decide, by decide, by decide,
      by decide, by decide, by decide⟩,
    (extractModelNumber_spec (bytes "Model Number: ABC123")).2.2.1 [] (bytes "ABC123") []
      ⟨[32], [], [32], by decide, by decide, by decide, by decide, by decide, by decide,
        by decide, by decide, by decide⟩
      (fun _ _ _ _ => Nat.zero_le _)⟩

/-! ## The rating fields of the Product -/

theorem Atoi_nonneg (s : GoString) (v : Int) (h : Atoi s = some v)
    (hsign : s.head? ≠ some 45) : 0 ≤ v := by
  unfold Atoi at h
  cases s with
  | nil => exact Option.noConfusion h
  | cons c rest =>
      have hc : c ≠ 45 := by
        intro h0
        exact hsign (by rw [h0]; rfl)
      simp only [hc, if_false] at h
      cases hp : parseDigits (if c = 43 then rest else c :: rest) with
      | none => rw [hp] at h; exact Option.noConfusion h
      | some n =>
          rw [hp] at h
          simp only at h
          split at h
          · rw [← Option.some.inj h]
            exact Int.natCast_nonneg n
          · exact Option.noConfusion h

theorem Atoi_range (s : GoString) (v : Int) (h : Atoi s = some v) :
    -(2 : Int) ^ 63 ≤ v ∧ v < (2 : Int) ^ 63 := by
  unfold Atoi at h
  cases s with
  | nil => exact Option.noConfusion h
  | cons c rest =>
      simp only at h
      split at h
      · cases hp : parseDigits rest with
        | none => rw [hp] at h; exact Option.noConfusion h
        | some n =>
            rw [hp] at h
            simp only at h
            split at h
            · rename_i hn
              rw [← Option.some.inj h]
              have : (n : Int) ≤ 2 ^ 63 := by exact_mod_cast hn
              constructor <;> omega
            · exact Option.noConfusion h
      · cases hp : parseDigits (if c = 43 then rest else c :: rest) with
        | none => rw [hp] at h; exact Option.noConfusion h
        | some n =>
            rw [hp] at h
            simp only at h
            split at h
            · rename_i hn
              rw [← Option.some.inj h]
              have h1 : (n : Int) < 2 ^ 63 := by exact_mod_cast hn
              have h2 : (0 : Int) ≤ n := Int.natCast_nonneg n
              constructor <;> omega
            · exact Option.noConfusion h

/-- The score spelled by a digit, a point and a digit lies between 0 and 5 when
it is at most 5.0. -/
theorem ParseFloat_score_in_range :
    ∀ d, d < 6 → ∀ f, f < 10 → (d ≤ 4 ∨ f = 0) →
      (match ParseFloat [48 + d, 46, 48 + f] with
        | Except.ok v => v.between0and5
        | Except.error _ => false) = true := by
  decide

/-- Claim C11 as stated fails: for the rating string `9.9-12` the stage builds a
Product whose RatingScore is present and is 9.9, above 5, and whose RatingCount
is present and is -12, below 0.  Nothing in the stage checks a range. -/
theorem rating_out_of_range :
    (extractType 0 outOfRangeRatingBag).map
        (fun r => (r.1.RatingScore, r.1.RatingCount))
      = some (some (roundToFloat64 false 99 10).1, some (-12)) ∧
    (roundToFloat64 false 99 10).1.between0and5 = false ∧
    fmtFloat2 (roundToFloat64 false 99 10).1 = bytes "9.90" ∧
    ((-12 : Int) < 0) := by
  decide

/-- Claim C11, amended: for every raw field bag, the RatingScore of the Product
built by the Extract/Type stage, when present, is the number that
`strconv.ParseFloat` reads in the first 3 bytes of the rating string, with no
range enforced; it lies between 0 and 5 when these bytes are a digit, a point
and a digit that spell at most 5.0.  The RatingCount, when present, is the
integer that `strconv.Atoi` reads in the rest of the string, an `int` that is
non-negative whenever that rest does not start with a minus sign. -/
theorem rating_fields_spec (n : Int) (item : RawFieldBag) (p : Product) (n2 : Int)
    (h : extractType n item = some (p, n2)) :
    (∀ v, p.RatingScore = some v → ParseFloat (item.rating.take 3) = Except.ok v) ∧
    (∀ d f rest, item.rating = (48 + d) :: 46 :: (48 + f) :: rest → d < 6 → f < 10 →
      (d ≤ 4 ∨ f = 0) → ∃ v, p.RatingScore = some v ∧ v.between0and5 = true) ∧
    (∀ c, p.RatingCount = some c →
      Atoi (item.rating.drop 3) = some c ∧ -(2 : Int) ^ 63 ≤ c ∧ c < (2 : Int) ^ 63 ∧
      ((item.rating.drop 3).head? ≠ some 45 → 0 ≤ c)) := by
  have hf := extractType_fields n item p n2 h
  have hs := hf.2.2.2.2.2.2.2.2.2.2.2.2.1
  have hc := hf.2.2.2.2.2.2.2.2.2.2.2.2.2.1
  refine ⟨?_, ?_, ?_⟩
  · intro v hv
    rw [hv] at hs
    by_cases h0 : item.rating = []
    · simp [h0] at hs
    · simp only [ne_eq, h0, not_false_eq_true, if_true] at hs
      cases hp : ParseFloat (List.take 3 item.rating) with
      | error e => rw [hp] at hs; exact Option.noConfusion hs
      | ok w => rw [hp] at hs; rw [Option.some.inj hs]
  · intro d f rest hr hd hfd hle
    have h0 : item.rating ≠ [] := by rw [hr]; exact List.cons_ne_nil _ _
    have ht : List.take 3 item.rating = [48 + d, 46, 48 + f] := by rw [hr]; rfl
    have hrange := ParseFloat_score_in_range d hd f hfd hle
    rw [hs, if_pos h0, ht]
    cases hp : ParseFloat [48 + d, 46, 48 + f] with
    | error e => rw [hp] at hrange; exact absurd hrange (by simp)
    | ok w => rw [hp] at hrange; exact ⟨w, rfl, hrange⟩
  · intro c hcc
    rw [hcc] at hc
    by_cases h0 : item.rating = []
    · simp [h0] at hc
    · simp only [ne_eq, h0, not_false_eq_true, if_true] at hc
      exact ⟨hc.symm, (Atoi_range _ c hc.symm).1, (Atoi_range _ c hc.symm).2,
        Atoi_nonneg _ c hc.symm⟩

/-- Witness of `rating_fields_spec` on the Product built from a bag with the
rating string `4.5120`. -/
theorem rating_fields_spec_witness :
    extractType 0 fullBag = some (fullProduct, 1) ∧
    fullBag.rating = (48 + 4) :: 46 :: (48 + 5) :: bytes "120" ∧
    (∃ v, fullProduct.RatingScore = some v ∧ v.between0and5 = true) ∧
    fullProduct.RatingCount = some 120 ∧ (0 : Int) ≤ 120 :=
  ⟨by decide, by decide,
    (rating_fields_spec 0 fullBag fullProduct 1 (by decide)).2.1 4 5 (bytes "120") (by decide)
      (by decide) (by decide) (by decide),
    by decide,
    ((rating_fields_spec 0 fullBag fullProduct 1 (by decide)).2.2 120 (by decide)).2.2.2
      (by decide)⟩

/-! ## The best-seller flag -/

theorem extractType_isBestSeller (n : Int) (item : RawFieldBag) (p : Product) (n2 : Int)
    (h : extractType n item = some (p, n2)) : p.IsBestSeller = false :=
  (extractType_fields n item p n2 h).2.2.2.2.2.2.2.2.2.2.2.2.2.2

/-- Claim C15, at the input where the code departs from it: a bag whose
isBestSeller flag is true.  The claim gives the Product the same flag; the
struct literal of the Extract/Type stage never sets `IsBestSeller`, so the
Product has the zero value false (as it has for every bag). -/
theorem isBestSeller_not_carried :
    bestSellerBag.isBestSeller = true ∧
    filterPredicate bestSellerBag = some true ∧
    (extractType 0 bestSellerBag).map (fun r => r.1.IsBestSeller) = some false := by
  decide

/-! ## The category column -/

/-- Claim C16: for every text, the result of `extractCategory` contains no
comma and no lowercase ASCII letter immediately followed by an uppercase ASCII
letter, and it is a suffix of the text after its no-break spaces have been
replaced by spaces; so it is one comma-separated value, and a row that starts
with it splits after it. -/
theorem extractCategory_invariants (text : GoString) :
    NoComma (extractCategory text) ∧
    (¬ ∃ pre a b post, extractCategory text = pre ++ a :: b :: post ∧
      isLower a = true ∧ isUpper b = true) ∧
    (∃ pre, replaceNBSP text = pre ++ extractCategory text) ∧
    splitComma (extractCategory text) = [extractCategory text] ∧
    (∀ rest, splitComma (extractCategory text ++ 44 :: rest)
      = extractCategory text :: splitComma rest) := by
  obtain ⟨pre, h1, _, h3, h4⟩ := lastSegment_spec (replaceNBSP text) [] []
    (by simp [NoComma]) rfl (by intro a b h; simp at h) (Or.inl rfl)
  have hr : (splitCommaAux (insertCommas (replaceNBSP text)) []).getLastD []
      = extractCategory text := rfl
  rw [hr] at h1 h3 h4
  simp only [List.nil_append] at h1
  refine ⟨h3, ?_, ⟨pre, h1⟩, splitComma_noComma _ h3, fun rest => splitComma_append _ rest h3⟩
  intro hex
  have := (hasCaseBoundary_iff (extractCategory text)).mpr hex
  rw [h4] at this
  exact Bool.false_ne_true this

/-! ## The rating count in the two stages -/

theorem filterPredicate_eq_count (item : RawFieldBag) :
    filterPredicate item
      = (filterRatingCount item).map (fun c => item.isBestSeller || decide (c > 100)) := by
  unfold filterPredicate filterRatingCount
  by_cases h0 : item.rating = []
  · simp [h0]
  · simp only [ne_eq, h0, not_false_eq_true, if_true]
    cases h1 : sliceFrom3 item.rating with
    | none => rfl
    | some tail => cases h2 : Atoi tail <;> simp [h2]

theorem filterRatingCount_eq (n : Int) (item : RawFieldBag) (p : Product) (n2 : Int)
    (h : extractType n item = some (p, n2)) :
    filterRatingCount item = some (p.RatingCount.getD 0) := by
  have hf := extractType_fields n item p n2 h
  have hc := hf.2.2.2.2.2.2.2.2.2.2.2.2.2.1
  unfold filterRatingCount
  by_cases h0 : item.rating = []
  · simp [h0, hc]
  · have h3 : 3 ≤ item.rating.length := by
      rcases hf.1 with h | h
      · exact absurd h h0
      · exact h
    simp only [ne_eq, h0, not_false_eq_true, if_true, sliceFrom3, h3] at hc ⊢
    rw [hc]
    cases Atoi (List.drop 3 item.rating) <;> rfl

/-- Claim C17: the Filter stage and the Extract/Type stage agree on the rating
count.  For every raw field bag that the filter keeps and whose isBestSeller
flag is false, a Product is built and it has a present RatingCount greater than
100; and for every bag from which a Product is built, the count the filter
compares with 100 is the Product's RatingCount when that is present and 0 when
it is absent. -/
theorem stages_agree_on_rating_count (n : Int) (item : RawFieldBag) :
    (filterPredicate item = some true → item.isBestSeller = false →
      ∃ p c, extractType n item = some (p, wrapInt64 (n + 1)) ∧
        p.RatingCount = some c ∧ 100 < c) ∧
    (∀ p n2, extractType n item = some (p, n2) →
      filterRatingCount item = some (p.RatingCount.getD 0) ∧
      filterPredicate item
        = some (item.isBestSeller || decide (p.RatingCount.getD 0 > 100))) := by
  have hsecond : ∀ p n2, extractType n item = some (p, n2) →
      filterRatingCount item = some (p.RatingCount.getD 0) ∧
      filterPredicate item
        = some (item.isBestSeller || decide (p.RatingCount.getD 0 > 100)) := by
    intro p n2 h
    have hc := filterRatingCount_eq n item p n2 h
    refine ⟨hc, ?_⟩
    rw [filterPredicate_eq_count, hc]
    rfl
  refine ⟨?_, hsecond⟩
  intro hk hb
  have hs : Sliceable item.rating := by
    by_contra hns
    rw [(filterPredicate_eq_none_iff item).mpr hns] at hk
    exact Option.noConfusion hk
  obtain ⟨p, hp⟩ := extractType_isSome_of_sliceable n item hs
  have h2 := (hsecond p _ hp).2
  rw [hk, hb] at h2
  have hgt : p.RatingCount.getD 0 > 100 := by
    have := Option.some.inj h2
    simpa using this.symm
  cases hrc : p.RatingCount with
  | none =>
      rw [hrc] at hgt
      simp at hgt
  | some c =>
      rw [hrc] at hgt
      exact ⟨p, c, hp, hrc, by simpa using hgt⟩

/-- Witness of `stages_agree_on_rating_count` on a bag with 120 ratings that is
no best seller. -/
theorem stages_agree_on_rating_count_witness :
    filterPredicate fullBag = some true ∧ fullBag.isBestSeller = false ∧
    extractType 0 fullBag = some (fullProduct, 1) ∧
    (∃ p c, extractType 0 fullBag = some (p, wrapInt64 (0 + 1)) ∧
      p.RatingCount = some c ∧ 100 < c) ∧
    filterRatingCount fullBag = some (fullProduct.RatingCount.getD 0) :=
  ⟨by decide, by decide, by decide,
    (stages_agree_on_rating_count 0 fullBag).1 (by decide) (by decide),
    ((stages_agree_on_rating_count 0 fullBag).2 fullProduct 1 (by decide)).1⟩

/-! ## Retries of a failing fetch -/

theorem onError_after_onRequest (ctx : RequestCtx) :
    onError (onRequest ctx) = (⟨bytes "1"⟩, true) := by
  show onError ⟨bytes "0"⟩ = (⟨bytes "1"⟩, true)
  decide

theorem failingFetch_eq (fuel : Nat) : ∀ ctx, failingFetch fuel ctx = ⟨fuel, false⟩ := by
  induction fuel with
  | zero => intro ctx; rfl
  | succ fuel ih =>
      intro ctx
      rw [failingFetch, onError_after_onRequest]
      simp only [ih]

/-- Claim C12, on a fetch whose every attempt fails: the claim abandons it
after at most 3 retries.  The OnError handler alone would do so (it retries on
the counts 0, 1, 2 and stops on 3), but every re-issued request passes through
the OnRequest handler, which puts the count back to 0; so the handler always
reads 0 and retries: however many attempts are followed, each one is followed
by a retry and the fetch is never abandoned. -/
theorem failing_fetch_retried_forever :
    (∀ fuel ctx, failingFetch fuel ctx = ⟨fuel, false⟩) ∧
    (failingFetch 4 ⟨[]⟩).retries = 4 ∧
    (∀ ctx, onRequest ctx = ⟨bytes "0"⟩) ∧
    onError ⟨bytes "0"⟩ = (⟨bytes "1"⟩, true) ∧
    onError ⟨bytes "1"⟩ = (⟨bytes "2"⟩, true) ∧
    onError ⟨bytes "2"⟩ = (⟨bytes "3"⟩, true) ∧
    onError ⟨bytes "3"⟩ = (⟨bytes "3"⟩, false) :=
  ⟨failingFetch_eq, by decide, fun _ => rfl, by decide, by decide, by decide, by decide⟩

/-! ## The in-flight counter -/

theorem detailHandlerRuns_eq (matching : Nat) :
    ∀ wg : Nat, detailHandlerRuns matching wg
      = if matching ≤ wg then some (wg - matching) else none := by
  induction matching with
  | zero => intro wg; simp [detailHandlerRuns]
  | succ k ih =>
      intro wg
      cases wg with
      | zero => simp [detailHandlerRuns, detailHandlerDone]
      | succ n =>
          rw [detailHandlerRuns]
          simp only [detailHandlerDone]
          rw [ih n]
          by_cases h : k ≤ n
          · rw [if_pos h, if_pos (by omega)]
            congr 1
            omega
          · rw [if_neg h, if_neg (by omega)]

theorem dispatchedVisit_balanced_iff (wg : Nat) (outcome : VisitOutcome) :
    dispatchedVisit wg outcome = some wg ↔ outcome = VisitOutcome.fetched 1 := by
  cases outcome with
  | failed =>
      show some (wg + 1) = some wg ↔ _
      constructor
      · intro h
        have := Option.some.inj h
        omega
      · intro h; exact VisitOutcome.noConfusion h
  | fetched k =>
      show detailHandlerRuns k (wg + 1) = some wg ↔ _
      rw [detailHandlerRuns_eq]
      constructor
      · intro h
        by_cases hk : k ≤ wg + 1
        · rw [if_pos hk] at h
          have := Option.some.inj h
          have : k = 1 := by omega
          rw [this]
        · rw [if_neg hk] at h
          exact Option.noConfusion h
      · intro h
        have hk : k = 1 := by injection h
        rw [hk, if_pos (by omega)]
        congr 1

/-- Claim C13, at the exit paths where the code departs from it: a visit whose
fetch fails, and a retrieved page with no element matching `div[id=__next]`.
The only `wg.Done()` is the deferred one of the OnHTML handler, which does not
run on these paths, so the counter incremented by the dispatch stays at 1
instead of returning to 0.  Only a retrieved page with exactly one matching
element gives the counter back; with two matching elements and no other visit
counted, the second `wg.Done()` panics. -/
theorem counter_not_released :
    dispatchedVisit 0 VisitOutcome.failed = some 1 ∧
    dispatchedVisit 0 (VisitOutcome.fetched 0) = some 1 ∧
    dispatchedVisit 0 (VisitOutcome.fetched 1) = some 0 ∧
    dispatchedVisit 0 (VisitOutcome.fetched 2) = none ∧
    (∀ wg outcome,
      dispatchedVisit wg outcome = some wg ↔ outcome = VisitOutcome.fetched 1) :=
  ⟨by decide, by decide, by decide, by decide, dispatchedVisit_balanced_iff⟩

/-! ## Closing the channel -/

/-- Claim C14, on a run with one product link, under the schedule in which the
goroutine of the detail visit starts only after the completion goroutine has
run.  The dispatch launches the goroutine without touching the counter
(`wg.Add(1)` is the first statement of the goroutine, not a statement before
`go`); so once the list loop has ended the completion goroutine finds no fetch
in flight and the counter at 0, and closes the channel while the dispatched
visit is still pending; the visit then sends on the closed channel (the
deferred `wg.Done()` runs while the panic unwinds). -/
theorem channel_closed_while_visit_pending :
    step RunState.initial Action.dispatch
      = some ⟨[VisitPc.launched], CoordPc.idle, 0, false, false⟩ ∧
    run [Action.dispatch, Action.listLoopEnds, Action.crawlerWait, Action.counterWait,
        Action.close] RunState.initial
      = some ⟨[VisitPc.launched], CoordPc.closed, 0, true, false⟩ ∧
    run [Action.dispatch, Action.listLoopEnds, Action.crawlerWait, Action.counterWait,
        Action.close, Action.visitAdd 0, Action.visitStart 0, Action.visitSend 0]
        RunState.initial
      = some ⟨[VisitPc.visiting], CoordPc.closed, 0, true, true⟩ := by
  decide

end Joltik
